import Mathlib

/-!
# http-benchmarker: the benchmarking engine

A shallow embedding of `internal/bench/bench.go` (and of the way `cmd/bench/main.go`
drives it), followed by theorems about workload partitioning, per-worker KPI
collection, latency bucketing, cross-worker aggregation and the integer columns of
the report.

Conventions of the embedding.

* Go's `int` and `time.Duration` are 64-bit two's-complement integers.  They are
  embedded as `Int`, and every arithmetic operation of the source is followed by
  `wrap64`, so overflow behaves as in Go.
* A run-time panic is `Except.error`; normal completion is `Except.ok`.
* The network is a parameter: `net k url` is what `http.Get url` and the clock
  give for the request issued for the `k`-th descriptor of the workload.
* The goroutines of `Benchmark` are embedded by their results: worker `i`
  contributes one KPI, and the order in which the KPIs arrive on the channel is
  the parameter `arrival`.  The embedding assumes the schedule in which every
  `wg.Add(1)` is executed before the matching `wg.Done()`.
* The floating-point columns of `KPI.Show` (bucket ratios and success ratio)
  are not embedded; floating-point division never panics in Go.
* The capacity that `make(chan *KPI, n)` accepts is not fixed by the source: it is
  a limit of the Go runtime and of the machine.  It is the parameter `Runtime`.
-/

namespace Bench

/-! ## Go integers and panics -/

/-- Run-time panics that the embedded code can raise. -/
inductive Panic where
  | divideByZero
  | sliceBounds
  | indexOutOfRange
  | makechanSize
  deriving DecidableEq, Repr

/-- The limit of the Go runtime that `Benchmark` depends on.  `maxChan` is the
largest capacity `n` for which `make(chan *KPI, n)` succeeds.  The runtime panics
with `makechan: size out of range` when `8 * n > maxAlloc - hchanSize`, where
`maxAlloc = 2 ^ 48` on a 64-bit platform, so the limit is below `2 ^ 45`; the
memory of the machine may lower it further. -/
structure Runtime where
  maxChan : Nat
  maxChan_lt : maxChan < 2 ^ 45

/-- Reduction of a mathematical integer to the 64-bit two's-complement range. -/
def wrap64 (x : Int) : Int := (x + 2 ^ 63) % 2 ^ 64 - 2 ^ 63

/-- Go `a + b` on `int` / `time.Duration`. -/
def add64 (a b : Int) : Int := wrap64 (a + b)

/-- Go `a * b` on `int`. -/
def mul64 (a b : Int) : Int := wrap64 (a * b)

/-- Go `a / b` on `int` / `time.Duration`: truncated division, panics when `b = 0`;
the quotient `MinInt64 / -1` wraps. -/
def div64 (a b : Int) : Except Panic Int :=
  if b = 0 then Except.error Panic.divideByZero else Except.ok (wrap64 (Int.tdiv a b))

/-- Go slice expression `xs[lo:hi]` on a slice whose capacity equals its length:
panics unless `0 ≤ lo ≤ hi ≤ len(xs)`. -/
def goSlice {α : Type} (xs : List α) (lo hi : Int) : Except Panic (List α) :=
  if 0 ≤ lo ∧ lo ≤ hi ∧ hi ≤ (xs.length : Int) then
    Except.ok ((xs.drop lo.toNat).take (hi.toNat - lo.toNat))
  else Except.error Panic.sliceBounds

/-- The constant `time.Millisecond`, in nanoseconds. -/
def Millisecond : Int := 1000000

/-- The constant `time.Second`, in nanoseconds. -/
def Second : Int := 1000000000

/-! ## Data model -/

/-- The type `URLInfo`. -/
structure URLInfo where
  method : String
  url : String
  header : List (String × String)
  data : String
  deriving DecidableEq, Repr

/-- The function `NewURLInfo`: only the URL is populated. -/
def NewURLInfo (line : String) : URLInfo :=
  { method := "", url := line, header := [], data := "" }

/-- The type `BenchmarkerBuilder`. -/
structure BenchmarkerBuilder where
  WorkerNum : Int
  TimeDistributionThreshold : List Int
  Filename : String
  deriving DecidableEq, Repr

/-- The function `NewBenchmarkerBuilder`: default thresholds, zero values elsewhere. -/
def NewBenchmarkerBuilder : BenchmarkerBuilder :=
  { WorkerNum := 0
    TimeDistributionThreshold :=
      [50 * Millisecond, 100 * Millisecond, 200 * Millisecond, 300 * Millisecond,
        500 * Millisecond]
    Filename := "" }

/-- The method `WithWorkerNum`. -/
def BenchmarkerBuilder.WithWorkerNum (b : BenchmarkerBuilder) (workerNum : Int) :
    BenchmarkerBuilder :=
  { b with WorkerNum := workerNum }

/-- The method `WithTimeDistributionThreshold`. -/
def BenchmarkerBuilder.WithTimeDistributionThreshold (b : BenchmarkerBuilder)
    (timeDistributionThreshold : List Int) : BenchmarkerBuilder :=
  { b with TimeDistributionThreshold := timeDistributionThreshold }

/-- The method `WithFilename`. -/
def BenchmarkerBuilder.WithFilename (b : BenchmarkerBuilder) (filename : String) :
    BenchmarkerBuilder :=
  { b with Filename := filename }

/-- The type `Benchmarker`. -/
structure Benchmarker where
  workerNum : Int
  timeDistributionThreshold : List Int
  infos : List URLInfo
  deriving DecidableEq, Repr

/-- The type `KPI`. -/
structure KPI where
  name : String
  success : Int
  fail : Int
  totalTime : Int
  count : Int
  timeDistribution : List Int
  deriving DecidableEq, Repr

/-- A Go `error` value returned by `Build` (the error of `os.Open`). -/
inductive GoError where
  | openFailed (filename : String)
  deriving DecidableEq, Repr

/-- What one `http.Get` gives: a transport error, or a response together with the
time `time.Since(ts)` measured for it. -/
inductive GetResult where
  | transportError
  | response (elaspe : Int)
  deriving DecidableEq, Repr

/-- Whether a request got a response. -/
def GetResult.isResponse : GetResult → Bool
  | GetResult.transportError => false
  | GetResult.response _ => true

/-! ## `BenchmarkerBuilder.Build` -/

/-- The read loop of `Build`: `reader.ReadString` up to each newline, the newline
stripped by `line[:len(line)-1]`; at end of file the loop breaks and an
unterminated last line is dropped.  `cur` holds the characters of the current
line, most recent first. -/
def Build.readLines : List Char → List Char → List URLInfo
  | _, [] => []
  | cur, c :: rest =>
    if c = '\n' then NewURLInfo (String.mk cur.reverse) :: Build.readLines [] rest
    else Build.readLines (c :: cur) rest

/-- The method `Build`.  The file system is the parameter `fs`: `fs name` is the
content of the file, or `none` when `os.Open` fails.  The result is the Go pair
`(*Benchmarker, error)`.  No field of the builder is validated. -/
def BenchmarkerBuilder.Build (b : BenchmarkerBuilder) (fs : String → Option (List Char)) :
    Option Benchmarker × Option GoError :=
  match fs b.Filename with
  | none => (none, some (GoError.openFailed b.Filename))
  | some content =>
    (some { workerNum := b.WorkerNum
            timeDistributionThreshold := b.TimeDistributionThreshold
            infos := Build.readLines [] content }, none)

/-! ## `Benchmarker.BenchmarkOnce` -/

/-- The local variables of the loop of `BenchmarkOnce`. -/
structure LoopState where
  totalTime : Int
  success : Int
  fail : Int
  timeDistribution : List Int
  deriving DecidableEq, Repr

/-- The inner loop `for i := range timeDistribution`: bucket `i` is incremented
when `elaspe < threshold[i]`.  The two slices have the same length. -/
def BenchmarkOnce.bump (elaspe : Int) : List Int → List Int → List Int
  | c :: cs, t :: ts =>
    (if elaspe < t then add64 c 1 else c) :: BenchmarkOnce.bump elaspe cs ts
  | _, _ => []

/-- One iteration of the loop of `BenchmarkOnce`. -/
def BenchmarkOnce.step (thresholds : List Int) (st : LoopState) : GetResult → LoopState
  | GetResult.transportError => { st with fail := add64 st.fail 1 }
  | GetResult.response elaspe =>
    { st with
      totalTime := add64 st.totalTime elaspe
      success := add64 st.success 1
      timeDistribution := BenchmarkOnce.bump elaspe st.timeDistribution thresholds }

/-- The loop `for _, info := range infos` of `BenchmarkOnce`; `j` is the position
of the next descriptor in the slice. -/
def BenchmarkOnce.loop (thresholds : List Int) (get : Nat → String → GetResult) :
    Nat → List URLInfo → LoopState → LoopState
  | _, [], st => st
  | j, info :: rest, st =>
    BenchmarkOnce.loop thresholds get (j + 1) rest
      (BenchmarkOnce.step thresholds st (get j info.url))

/-- The method `BenchmarkOnce`. -/
def Benchmarker.BenchmarkOnce (b : Benchmarker) (infos : List URLInfo)
    (get : Nat → String → GetResult) : KPI :=
  let st := BenchmarkOnce.loop b.timeDistributionThreshold get 0 infos
    { totalTime := 0, success := 0, fail := 0
      timeDistribution := List.replicate b.timeDistributionThreshold.length 0 }
  { name := "http", success := st.success, fail := st.fail, totalTime := st.totalTime
    count := 1, timeDistribution := st.timeDistribution }

/-! ## `KPI.Show` -/

/-- The integer columns of the line formatted by `KPI.Show`. -/
structure ShowFields where
  name : String
  success : Int
  fail : Int
  totalTime : Int
  qps : Int
  resTime : Int
  deriving DecidableEq, Repr

/-- The method `Show`: the arguments of `Sprintf` are evaluated in order, and each
integer division panics on a zero divisor. -/
def KPI.Show (k : KPI) : Except Panic ShowFields := do
  let qps ← div64 (mul64 (mul64 k.success Second) k.count) k.totalTime
  let resTime ← div64 k.totalTime k.success
  pure { name := k.name, success := k.success, fail := k.fail, totalTime := k.totalTime
         qps := qps, resTime := resTime }

/-! ## `Benchmarker.Benchmark` -/

/-- The slice bounds computed by worker `i`: `i*l/b.workerNum` and
`(i+1)*l/b.workerNum`, where `l := len(b.infos)`. -/
def Benchmark.bounds (b : Benchmarker) (i : Int) : Except Panic (Int × Int) := do
  let l : Int := b.infos.length
  let lo ← div64 (mul64 i l) b.workerNum
  let hi ← div64 (mul64 (add64 i 1) l) b.workerNum
  pure (lo, hi)

/-- The slice `b.infos[i*l/b.workerNum : (i+1)*l/b.workerNum]` taken by worker `i`. -/
def Benchmark.slice (b : Benchmarker) (i : Int) : Except Panic (List URLInfo) := do
  let (lo, hi) ← Benchmark.bounds b i
  goSlice b.infos lo hi

/-- The body of the goroutine of worker `i`:
`b.BenchmarkOnce(b.infos[i*l/b.workerNum : (i+1)*l/b.workerNum])`.  The request for
the `j`-th descriptor of the slice is the request for descriptor `lo + j` of the
workload. -/
def Benchmark.worker (b : Benchmarker) (net : Nat → String → GetResult) (i : Int) :
    Except Panic KPI := do
  let (lo, _) ← Benchmark.bounds b i
  let s ← Benchmark.slice b i
  pure (b.BenchmarkOnce s (fun j => net (lo.toNat + j)))

/-- The slices of the workers with the given indices, in that order. -/
def Benchmark.slices (b : Benchmarker) : List Nat → Except Panic (List (List URLInfo))
  | [] => pure []
  | i :: rest => do
    let s ← Benchmark.slice b i
    let ss ← Benchmark.slices b rest
    pure (s :: ss)

/-- The KPIs of the workers with the given indices, in that order; a panic in any
goroutine ends the program. -/
def Benchmark.workers (b : Benchmarker) (net : Nat → String → GetResult) :
    List Nat → Except Panic (List KPI)
  | [] => pure []
  | i :: rest => do
    let k ← Benchmark.worker b net i
    let ks ← Benchmark.workers b net rest
    pure (k :: ks)

/-- The statement `kpis := make(chan *KPI, b.workerNum)`: a negative size panics,
and so does a size beyond the capacity that the runtime accepts. -/
def Benchmark.makeChan (rt : Runtime) (workerNum : Int) : Except Panic Unit :=
  if workerNum < 0 ∨ (rt.maxChan : Int) < workerNum then Except.error Panic.makechanSize
  else Except.ok ()

/-- The map `kpiMap`, as an association list in insertion order. -/
abbrev KPIMap := List (String × KPI)

/-- Lookup `kpiMap[name]`. -/
def KPIMap.get? : KPIMap → String → Option KPI
  | [], _ => none
  | (n, k) :: rest, name => if n = name then some k else KPIMap.get? rest name

/-- Store `kpiMap[name] = k`. -/
def KPIMap.set : KPIMap → String → KPI → KPIMap
  | [], name, k => [(name, k)]
  | (n, v) :: rest, name, k =>
    if n = name then (n, k) :: rest else (n, v) :: KPIMap.set rest name k

/-- The loop `for i := range kpi.timeDistribution { acc[i] += kpi.timeDistribution[i] }`:
an index beyond the accumulator panics. -/
def Benchmark.addInto : List Int → List Int → Except Panic (List Int)
  | acc, [] => pure acc
  | [], _ :: _ => Except.error Panic.indexOutOfRange
  | a :: acc, s :: src => do
    let r ← Benchmark.addInto acc src
    pure (add64 a s :: r)

/-- One iteration of the merge loop `for kpi := range kpis`. -/
def Benchmark.mergeOne (b : Benchmarker) (kpiMap : KPIMap) (kpi : KPI) :
    Except Panic KPIMap := do
  let acc : KPI :=
    match kpiMap.get? kpi.name with
    | some a => a
    | none =>
      { name := kpi.name, success := 0, fail := 0, totalTime := 0, count := 0
        timeDistribution := List.replicate b.timeDistributionThreshold.length 0 }
  let td ← Benchmark.addInto acc.timeDistribution kpi.timeDistribution
  pure (kpiMap.set kpi.name
    { acc with
      success := add64 acc.success kpi.success
      fail := add64 acc.fail kpi.fail
      totalTime := add64 acc.totalTime kpi.totalTime
      count := add64 acc.count kpi.count
      timeDistribution := td })

/-- The merge loop of `Benchmark` over the KPIs received from the channel. -/
def Benchmark.merge (b : Benchmarker) : KPIMap → List KPI → Except Panic KPIMap
  | kpiMap, [] => pure kpiMap
  | kpiMap, kpi :: rest => do
    let m ← Benchmark.mergeOne b kpiMap kpi
    Benchmark.merge b m rest

/-- The KPIs read from the channel: worker results in arrival order. -/
def Benchmark.received (ks : List KPI) (arrival : List Nat) : List KPI :=
  arrival.filterMap (fun i => ks[i]?)

/-- The part of `Benchmark` up to the end of the merge loop: the final `kpiMap`. -/
def Benchmark.aggregate (rt : Runtime) (b : Benchmarker) (net : Nat → String → GetResult)
    (arrival : List Nat) : Except Panic KPIMap := do
  Benchmark.makeChan rt b.workerNum
  let ks ← Benchmark.workers b net (List.range b.workerNum.toNat)
  Benchmark.merge b [] (Benchmark.received ks arrival)

/-- The reporting loop `for _, kpi := range kpiMap`: rename, then `Show`. -/
def Benchmark.report (b : Benchmarker) : KPIMap → Except Panic (List ShowFields)
  | [] => pure []
  | (_, kpi) :: rest => do
    let row ← KPI.Show { kpi with name := kpi.name ++ "-" ++ toString b.workerNum }
    let rows ← Benchmark.report b rest
    pure (row :: rows)

/-- What a completed call of `Benchmark` leaves: the rows printed and the `error`
returned. -/
structure BenchmarkResult where
  rows : List ShowFields
  err : Option GoError
  deriving DecidableEq, Repr

/-- The method `Benchmark`. -/
def Benchmarker.Benchmark (b : Benchmarker) (rt : Runtime)
    (net : Nat → String → GetResult)
    (arrival : List Nat) : Except Panic BenchmarkResult := do
  let kpiMap ← Benchmark.aggregate rt b net arrival
  let rows ← Benchmark.report b kpiMap
  pure { rows := rows, err := none }

/-! ## Definitions used to state the properties -/

/-- A runtime that accepts channels of up to `2 ^ 45 - 13` pointers: the limit of the
check of `makechan` for `maxAlloc = 2 ^ 48` and a channel header of 104 bytes. -/
def sampleRuntime : Runtime :=
  { maxChan := 35184372088819, maxChan_lt := by decide }

/-- The boundary `i * L / N` of the partition, over the natural numbers. -/
def bnd (L N i : Nat) : Nat := i * L / N

/-- A benchmarker with seven descriptors and three workers. -/
def sampleBenchmarker : Benchmarker :=
  { workerNum := 3
    timeDistributionThreshold := NewBenchmarkerBuilder.TimeDistributionThreshold
    infos := [NewURLInfo "u0", NewURLInfo "u1", NewURLInfo "u2", NewURLInfo "u3",
      NewURLInfo "u4", NewURLInfo "u5", NewURLInfo "u6"] }

/-- The outcomes of the requests issued for the descriptors `infos`, the first of
which is request number `k`. -/
def BenchmarkOnce.outcomes (get : Nat → String → GetResult) : Nat → List URLInfo → List GetResult
  | _, [] => []
  | k, info :: rest => get k info.url :: BenchmarkOnce.outcomes get (k + 1) rest

/-- The elapsed time of a request that got a response. -/
def GetResult.elapsed? : GetResult → Option Int
  | GetResult.transportError => none
  | GetResult.response elaspe => some elaspe

/-- The body of one iteration of the merge loop on an accumulator that is already in
the map: every counter of `k` is added into `a`. -/
def KPI.add (a k : KPI) : KPI :=
  { a with
    success := add64 a.success k.success
    fail := add64 a.fail k.fail
    totalTime := add64 a.totalTime k.totalTime
    count := add64 a.count k.count
    timeDistribution := List.zipWith add64 a.timeDistribution k.timeDistribution }

/-- The zeroed accumulator `&KPI{name, 0, 0, 0, 0, make([]int, m)}`. -/
def KPI.zero (name : String) (m : Nat) : KPI :=
  { name := name, success := 0, fail := 0, totalTime := 0, count := 0
    timeDistribution := List.replicate m 0 }

/-- The sum of column `i` of the bucket arrays of `kpis`. -/
def columnSum (kpis : List KPI) (i : Nat) : Int :=
  (kpis.map (fun k => k.timeDistribution.getD i 0)).sum

/-- The element-wise sum of `kpis` on `m` buckets, every sum reduced to 64 bits. -/
def KPI.total (name : String) (m : Nat) (kpis : List KPI) : KPI :=
  { name := name
    success := wrap64 (kpis.map KPI.success).sum
    fail := wrap64 (kpis.map KPI.fail).sum
    totalTime := wrap64 (kpis.map KPI.totalTime).sum
    count := wrap64 (kpis.map KPI.count).sum
    timeDistribution := (List.range m).map (fun i => wrap64 (columnSum kpis i)) }

/-- The integer `x` is representable as a Go `int` (64 bits, two's complement). -/
def Fits64 (x : Int) : Prop := -(2 ^ 63) ≤ x ∧ x < 2 ^ 63

/-- Three KPI records named `http` on five buckets. -/
def sampleKPIs : List KPI :=
  [ { name := "http", success := 2, fail := 1, totalTime := 130, count := 1
      timeDistribution := [0, 1, 2, 2, 2] },
    { name := "http", success := 1, fail := 0, totalTime := 40, count := 1
      timeDistribution := [1, 1, 1, 1, 1] },
    { name := "http", success := 3, fail := 2, totalTime := 900, count := 1
      timeDistribution := [0, 0, 1, 2, 3] } ]

/-- Whether a request got a response in strictly less than `t`. -/
def GetResult.under (t : Int) : GetResult → Bool
  | GetResult.transportError => false
  | GetResult.response elaspe => decide (elaspe < t)

/-- The update of one bucket, of threshold `t`, by one request. -/
def BenchmarkOnce.bucketStep (t : Int) (c : Int) (r : GetResult) : Int :=
  if r.under t then add64 c 1 else c

/-- The KPI of a worker whose requests had the outcomes `obs`, in closed form. -/
def KPI.ofOutcomes (thresholds : List Int) (obs : List GetResult) : KPI :=
  { name := "http"
    success := wrap64 (obs.countP GetResult.isResponse)
    fail := wrap64 (obs.countP (fun r => !r.isResponse))
    totalTime := wrap64 (obs.filterMap GetResult.elapsed?).sum
    count := 1
    timeDistribution := thresholds.map (fun t => wrap64 (obs.countP (GetResult.under t))) }

/-- The outcomes of the requests issued by worker `i`, for the descriptors between
its two bounds. -/
def Benchmark.workerOutcomes (b : Benchmarker) (net : Nat → String → GetResult) (i : Nat) :
    List GetResult :=
  BenchmarkOnce.outcomes net (bnd b.infos.length b.workerNum.toNat i)
    ((b.infos.drop (bnd b.infos.length b.workerNum.toNat i)).take
      (bnd b.infos.length b.workerNum.toNat (i + 1) - bnd b.infos.length b.workerNum.toNat i))

/-- Six descriptors for three workers with the default thresholds. -/
def sixURLs : Benchmarker :=
  { workerNum := 3
    timeDistributionThreshold := NewBenchmarkerBuilder.TimeDistributionThreshold
    infos := [NewURLInfo "a", NewURLInfo "b", NewURLInfo "c", NewURLInfo "d",
      NewURLInfo "e", NewURLInfo "f"] }

/-- A network on which every request gets a response after 20 ms. -/
def allFast : Nat → String → GetResult :=
  fun _ _ => GetResult.response (20 * Millisecond)

/-- Four descriptors for one worker with the default thresholds. -/
def fourURLs : Benchmarker :=
  { workerNum := 1
    timeDistributionThreshold := NewBenchmarkerBuilder.TimeDistributionThreshold
    infos := [NewURLInfo "a", NewURLInfo "b", NewURLInfo "c", NewURLInfo "d"] }

/-- A network on which the requests in odd position are refused and the others get a
response after 70 ms. -/
def halfRefused : Nat → String → GetResult :=
  fun k _ => if k % 2 = 0 then GetResult.response (70 * Millisecond)
    else GetResult.transportError

/-- A file system with one file, `urls.txt`, of two lines. -/
def sampleFS : String → Option (List Char) :=
  fun name => if name = "urls.txt" then some "http://a\nhttp://b\n".data else none

/-- The builder as `main` leaves it for the command line `-n 0 -f urls.txt`. -/
def zeroWorkerBuilder : BenchmarkerBuilder :=
  (NewBenchmarkerBuilder.WithWorkerNum 0).WithFilename "urls.txt"

/-- One worker on an empty workload (an empty input file). -/
def emptyInput : Benchmarker :=
  { workerNum := 1
    timeDistributionThreshold := NewBenchmarkerBuilder.TimeDistributionThreshold
    infos := [] }

/-- A KPI with 4 successes out of 7 in 0.96 s of cumulated latency, for 3 workers. -/
def sampleKPI : KPI :=
  { name := "http-3", success := 4, fail := 3, totalTime := 960000000, count := 3
    timeDistribution := [0, 1, 2, 2, 4] }

/-! ## Arithmetic of 64-bit integers -/

theorem wrap64_of_inRange {x : Int} (h1 : -(2 ^ 63) ≤ x) (h2 : x < 2 ^ 63) : wrap64 x = x := by
  unfold wrap64
  norm_num at h1 h2 ⊢
  omega

theorem wrap64_add_wrap64 (a b : Int) : wrap64 (wrap64 a + b) = wrap64 (a + b) := by
  unfold wrap64
  norm_num
  omega

theorem wrap64_wrap64 (a : Int) : wrap64 (wrap64 a) = wrap64 a := by
  have := wrap64_add_wrap64 a 0
  simpa using this

theorem div64_of_nonneg {a b : Int} (ha : 0 ≤ a) (ha2 : a < 2 ^ 63) (hb : 0 < b) :
    div64 a b = Except.ok (a / b) := by
  unfold div64
  rw [if_neg (by omega), Int.tdiv_eq_ediv ha (le_of_lt hb)]
  have h1 : 0 ≤ a / b := Int.ediv_nonneg ha (le_of_lt hb)
  have h2 : a / b ≤ a := Int.ediv_le_self b ha
  rw [wrap64_of_inRange (by omega) (by omega)]

/-! ## The partition of the workload -/

theorem bnd_zero (L N : Nat) : bnd L N 0 = 0 := by simp [bnd]

theorem bnd_self (L N : Nat) (hN : 0 < N) : bnd L N N = L := by
  simp [bnd, Nat.mul_div_cancel_left L hN]

theorem bnd_mono (L N : Nat) {i j : Nat} (h : i ≤ j) : bnd L N i ≤ bnd L N j :=
  Nat.div_le_div_right (Nat.mul_le_mul_right L h)

theorem bnd_le (L N : Nat) (hN : 0 < N) {i : Nat} (h : i ≤ N) : bnd L N i ≤ L := by
  have := bnd_mono L N h
  rwa [bnd_self L N hN] at this

theorem bound_eq (L N : Nat) (hN : 0 < N) (hR : (N : Int) * L < 2 ^ 63) (j : Nat)
    (hj : j ≤ N) (w : Int) (hw : w = j ∨ L = 0) :
    div64 (mul64 w (L : Int)) (N : Int) = Except.ok ((bnd L N j : Int)) := by
  have h1 : ((j * L : Nat) : Int) ≤ (N : Int) * L := by
    exact_mod_cast Nat.mul_le_mul_right _ hj
  have h0 : (0 : Int) ≤ ((j * L : Nat) : Int) := Int.ofNat_nonneg _
  have hprod : mul64 w (L : Int) = ((j * L : Nat) : Int) := by
    unfold mul64
    rcases hw with hw | hw
    · subst hw
      rw [← Int.ofNat_mul]
      exact wrap64_of_inRange (by omega) (by omega)
    · subst hw
      simp [wrap64]
  rw [hprod, div64_of_nonneg h0 (by omega) (by exact_mod_cast hN)]
  simp [bnd]

theorem bounds_eq (b : Benchmarker) (hN : 1 ≤ b.workerNum)
    (hR : b.workerNum * b.infos.length < 2 ^ 63) (i : Nat) (hi : i < b.workerNum.toNat) :
    Benchmark.bounds b i =
      Except.ok ((bnd b.infos.length b.workerNum.toNat i : Int),
        (bnd b.infos.length b.workerNum.toNat (i + 1) : Int)) := by
  obtain ⟨N, hNe⟩ : ∃ N : Nat, b.workerNum = (N : Int) := ⟨b.workerNum.toNat, by omega⟩
  unfold Benchmark.bounds
  rw [hNe] at hR hi hN ⊢
  simp only [Int.toNat_ofNat] at hi ⊢
  have hNpos : 0 < N := by omega
  have h2 : add64 (i : Int) 1 = ((i + 1 : Nat) : Int) ∨ b.infos.length = 0 := by
    by_cases hL : b.infos.length = 0
    · exact Or.inr hL
    · left
      unfold add64
      have hLpos : (1 : Int) ≤ b.infos.length := by exact_mod_cast Nat.pos_of_ne_zero hL
      have : (N : Int) ≤ N * b.infos.length := le_mul_of_one_le_right (by positivity) hLpos
      rw [wrap64_of_inRange] <;> push_cast <;> omega
  simp only [bind, Except.bind, pure, Except.pure]
  rw [bound_eq _ N hNpos hR i (le_of_lt hi) (i : Int) (Or.inl rfl),
    bound_eq _ N hNpos hR (i + 1) hi _ h2]

theorem bnd_step (L N : Nat) (hN : 0 < N) (i : Nat) :
    bnd L N i + L / N ≤ bnd L N (i + 1) ∧ bnd L N (i + 1) ≤ bnd L N i + L / N + 1 := by
  unfold bnd
  have e : (i + 1) * L = i * L + L := by ring
  rw [e]
  generalize i * L = a
  have hx1 : a / N * N ≤ a := Nat.div_mul_le_self a N
  have hx2 : a < a / N * N + N := by
    have := Nat.div_add_mod a N
    have := Nat.mod_lt a hN
    have : N * (a / N) = a / N * N := Nat.mul_comm _ _
    omega
  have hq1 : L / N * N ≤ L := Nat.div_mul_le_self L N
  have hq2 : L < L / N * N + N := by
    have := Nat.div_add_mod L N
    have := Nat.mod_lt L hN
    have : N * (L / N) = L / N * N := Nat.mul_comm _ _
    omega
  constructor
  · rw [Nat.le_div_iff_mul_le hN, Nat.add_mul]
    omega
  · rw [← Nat.lt_succ_iff, Nat.div_lt_iff_lt_mul hN]
    have : (a / N + L / N + 1).succ * N = a / N * N + L / N * N + N + N := by
      rw [Nat.succ_eq_add_one]; ring
    omega

theorem slice_eq (b : Benchmarker) (hN : 1 ≤ b.workerNum)
    (hR : b.workerNum * b.infos.length < 2 ^ 63) (i : Nat) (hi : i < b.workerNum.toNat) :
    Benchmark.slice b i =
      Except.ok ((b.infos.drop (bnd b.infos.length b.workerNum.toNat i)).take
        (bnd b.infos.length b.workerNum.toNat (i + 1)
          - bnd b.infos.length b.workerNum.toNat i)) := by
  have hNpos : 0 < b.workerNum.toNat := by omega
  have h1 := bnd_mono b.infos.length b.workerNum.toNat (Nat.le_succ i)
  have h2 := bnd_le b.infos.length b.workerNum.toNat hNpos (Nat.succ_le_of_lt hi)
  unfold Benchmark.slice
  rw [bounds_eq b hN hR i hi]
  simp only [bind, Except.bind]
  unfold goSlice
  rw [if_pos ⟨Int.ofNat_nonneg _, by exact_mod_cast h1, by exact_mod_cast h2⟩]
  simp only [Int.toNat_ofNat]

theorem slices_eq (b : Benchmarker) (hN : 1 ≤ b.workerNum)
    (hR : b.workerNum * b.infos.length < 2 ^ 63) (is : List Nat)
    (his : ∀ i ∈ is, i < b.workerNum.toNat) :
    Benchmark.slices b is =
      Except.ok (is.map (fun i =>
        (b.infos.drop (bnd b.infos.length b.workerNum.toNat i)).take
          (bnd b.infos.length b.workerNum.toNat (i + 1)
            - bnd b.infos.length b.workerNum.toNat i))) := by
  induction is with
  | nil => rfl
  | cons i rest ih =>
    have hi := his i (List.mem_cons_self _ _)
    have hrest := ih (fun j hj => his j (List.mem_cons_of_mem _ hj))
    simp only [Benchmark.slices, slice_eq b hN hR i hi, hrest, bind, Except.bind, pure,
      Except.pure, List.map_cons]

theorem flatten_pieces {α : Type} (xs : List α) (f : Nat → Nat) (h0 : f 0 = 0)
    (hmono : ∀ i, f i ≤ f (i + 1)) (n : Nat) :
    ((List.range n).map (fun i => (xs.drop (f i)).take (f (i + 1) - f i))).flatten
      = xs.take (f n) := by
  induction n with
  | zero => simp [h0]
  | succ n ih =>
    rw [List.range_succ, List.map_append, List.flatten_append, ih]
    have e : f (n + 1) = f n + (f (n + 1) - f n) := by have := hmono n; omega
    conv_rhs => rw [e, List.take_add]
    simp

theorem owner_unique (L N : Nat) (hN : 0 < N) (k : Nat) (hk : k < L) :
    ∃! i : Nat, i < N ∧ bnd L N i ≤ k ∧ k < bnd L N (i + 1) := by
  have hex : ∃ i, k < bnd L N (i + 1) := ⟨N - 1, by
    rw [Nat.sub_add_cancel hN, bnd_self L N hN]; exact hk⟩
  classical
  refine ⟨Nat.find hex, ⟨?_, ?_, Nat.find_spec hex⟩, ?_⟩
  · have : Nat.find hex ≤ N - 1 := Nat.find_min' hex (by
      rw [Nat.sub_add_cancel hN, bnd_self L N hN]; exact hk)
    omega
  · rcases Nat.eq_zero_or_pos (Nat.find hex) with h | h
    · rw [h, bnd_zero]; exact Nat.zero_le _
    · have hlt : Nat.find hex - 1 < Nat.find hex := by omega
      have := Nat.find_min hex hlt
      rw [Nat.sub_add_cancel h] at this
      omega
  · rintro j ⟨_, hj1, hj2⟩
    have hle : Nat.find hex ≤ j := Nat.find_min' hex hj2
    rcases Nat.lt_or_ge (Nat.find hex) j with hlt | hge
    · have h1 := bnd_mono L N (show Nat.find hex + 1 ≤ j from hlt)
      have h2 := Nat.find_spec hex
      omega
    · omega

/-! ## C1, C2: the partition -/

/-- C1 (partition completeness): for a worker count `N ≥ 1` (with `N * L` inside the
64-bit range), the slices `infos[i*L/N : (i+1)*L/N]` taken by the workers
`i = 0 .. N-1` are all well defined, there are `N` of them, their concatenation in
worker order is the original sequence, and every position of the sequence lies
within the bounds of exactly one worker. -/
theorem partition_complete (b : Benchmarker) (hN : 1 ≤ b.workerNum)
    (hR : b.workerNum * b.infos.length < 2 ^ 63) :
    ∃ ss : List (List URLInfo),
      Benchmark.slices b (List.range b.workerNum.toNat) = Except.ok ss ∧
      ss.length = b.workerNum.toNat ∧
      ss.flatten = b.infos ∧
      ∀ k : Nat, k < b.infos.length →
        ∃! i : Nat, i < b.workerNum.toNat ∧
          ∃ lo hi : Int, Benchmark.bounds b i = Except.ok (lo, hi) ∧ lo ≤ k ∧ (k : Int) < hi := by
  have hNpos : 0 < b.workerNum.toNat := by omega
  refine ⟨_, slices_eq b hN hR _ (fun i hi => List.mem_range.mp hi), by simp, ?_, ?_⟩
  · rw [flatten_pieces b.infos (bnd b.infos.length b.workerNum.toNat) (bnd_zero _ _)
      (fun i => bnd_mono _ _ (Nat.le_succ i)), bnd_self _ _ hNpos, List.take_length]
  · intro k hk
    obtain ⟨i, ⟨hi, h1, h2⟩, huniq⟩ := owner_unique b.infos.length b.workerNum.toNat hNpos k hk
    refine ⟨i, ⟨hi, _, _, bounds_eq b hN hR i hi, by exact_mod_cast h1, by exact_mod_cast h2⟩, ?_⟩
    rintro j ⟨hj, lo, hi2, hb, hlo, hhi⟩
    rw [bounds_eq b hN hR j hj] at hb
    injection hb with hb
    injection hb with e1 e2
    subst e1 e2
    exact huniq j ⟨hj, by exact_mod_cast hlo, by exact_mod_cast hhi⟩

/-- Witness of C1 on seven descriptors and three workers. -/
theorem partition_complete_witness :
    (1 ≤ sampleBenchmarker.workerNum ∧
      sampleBenchmarker.workerNum * sampleBenchmarker.infos.length < 2 ^ 63) ∧
    ∃ ss : List (List URLInfo),
      Benchmark.slices sampleBenchmarker (List.range sampleBenchmarker.workerNum.toNat)
        = Except.ok ss ∧
      ss.length = sampleBenchmarker.workerNum.toNat ∧
      ss.flatten = sampleBenchmarker.infos ∧
      ∀ k : Nat, k < sampleBenchmarker.infos.length →
        ∃! i : Nat, i < sampleBenchmarker.workerNum.toNat ∧
          ∃ lo hi : Int, Benchmark.bounds sampleBenchmarker i = Except.ok (lo, hi) ∧
            lo ≤ k ∧ (k : Int) < hi :=
  ⟨⟨by decide, by decide⟩, partition_complete sampleBenchmarker (by decide) (by decide)⟩

/-- C2 (partition balance): for a worker count `N ≥ 1` (with `N * L` inside the
64-bit range) and any two workers `i, j < N`, the bounds computed by the two workers
are defined, each slice has length `(i+1)*L/N - i*L/N`, and the two lengths differ
by at most one. -/
theorem partition_balanced (b : Benchmarker) (hN : 1 ≤ b.workerNum)
    (hR : b.workerNum * b.infos.length < 2 ^ 63) (i j : Nat)
    (hi : i < b.workerNum.toNat) (hj : j < b.workerNum.toNat) :
    ∃ (loi hii loj hij : Int) (si sj : List URLInfo),
      Benchmark.bounds b i = Except.ok (loi, hii) ∧
      Benchmark.bounds b j = Except.ok (loj, hij) ∧
      Benchmark.slice b i = Except.ok si ∧
      Benchmark.slice b j = Except.ok sj ∧
      (si.length : Int) = hii - loi ∧ (sj.length : Int) = hij - loj ∧
      |(si.length : Int) - (sj.length : Int)| ≤ 1 := by
  have hNpos : 0 < b.workerNum.toNat := by omega
  have len : ∀ t : Nat, t < b.workerNum.toNat →
      ((b.infos.drop (bnd b.infos.length b.workerNum.toNat t)).take
        (bnd b.infos.length b.workerNum.toNat (t + 1)
          - bnd b.infos.length b.workerNum.toNat t)).length
      = bnd b.infos.length b.workerNum.toNat (t + 1)
          - bnd b.infos.length b.workerNum.toNat t := by
    intro t ht
    have h2 := bnd_le b.infos.length b.workerNum.toNat hNpos (show t + 1 ≤ _ from ht)
    rw [List.length_take, List.length_drop]
    omega
  have mi := bnd_mono b.infos.length b.workerNum.toNat (Nat.le_add_right i 1)
  have mj := bnd_mono b.infos.length b.workerNum.toNat (Nat.le_add_right j 1)
  have si := bnd_step b.infos.length b.workerNum.toNat hNpos i
  have sj := bnd_step b.infos.length b.workerNum.toNat hNpos j
  refine ⟨_, _, _, _, _, _, bounds_eq b hN hR i hi, bounds_eq b hN hR j hj,
    slice_eq b hN hR i hi, slice_eq b hN hR j hj, ?_, ?_, ?_⟩
  · rw [len i hi]; omega
  · rw [len j hj]; omega
  · rw [len i hi, len j hj, abs_le]; omega

/-- Witness of C2: workers 0 and 2 of three, on seven descriptors. -/
theorem partition_balanced_witness :
    ∃ (loi hii loj hij : Int) (si sj : List URLInfo),
      Benchmark.bounds sampleBenchmarker (0 : Nat) = Except.ok (loi, hii) ∧
      Benchmark.bounds sampleBenchmarker (2 : Nat) = Except.ok (loj, hij) ∧
      Benchmark.slice sampleBenchmarker (0 : Nat) = Except.ok si ∧
      Benchmark.slice sampleBenchmarker (2 : Nat) = Except.ok sj ∧
      (si.length : Int) = hii - loi ∧ (sj.length : Int) = hij - loj ∧
      |(si.length : Int) - (sj.length : Int)| ≤ 1 :=
  partition_balanced sampleBenchmarker (by decide) (by decide) 0 2 (by decide) (by decide)

/-! ## The merge loop -/

theorem addInto_eq : ∀ (acc src : List Int), acc.length = src.length →
    Benchmark.addInto acc src = Except.ok (List.zipWith add64 acc src)
  | [], [], _ => rfl
  | [], _ :: _, h => by simp at h
  | _ :: _, [], h => by simp at h
  | a :: acc, s :: src, h => by
    have ih := addInto_eq acc src (by simpa using h)
    simp only [Benchmark.addInto, ih, bind, Except.bind, pure, Except.pure, List.zipWith]

theorem mergeOne_first (b : Benchmarker) (k : KPI)
    (hk : k.timeDistribution.length = b.timeDistributionThreshold.length) :
    Benchmark.mergeOne b [] k =
      Except.ok [(k.name, KPI.add (KPI.zero k.name b.timeDistributionThreshold.length) k)] := by
  unfold Benchmark.mergeOne
  simp only [KPIMap.get?, KPIMap.set, bind, Except.bind, pure, Except.pure]
  rw [addInto_eq _ _ (by simp [hk])]
  rfl

theorem mergeOne_next (b : Benchmarker) (n : String) (a k : KPI) (hn : k.name = n)
    (h : a.timeDistribution.length = k.timeDistribution.length) :
    Benchmark.mergeOne b [(n, a)] k = Except.ok [(n, KPI.add a k)] := by
  unfold Benchmark.mergeOne
  simp only [KPIMap.get?, KPIMap.set, hn, if_true, bind, Except.bind, pure, Except.pure]
  rw [addInto_eq _ _ h]
  rfl

theorem merge_next (b : Benchmarker) (n : String) (m : Nat) :
    ∀ (kpis : List KPI) (a : KPI), a.timeDistribution.length = m →
      (∀ k ∈ kpis, k.name = n ∧ k.timeDistribution.length = m) →
      Benchmark.merge b [(n, a)] kpis = Except.ok [(n, kpis.foldl KPI.add a)]
  | [], _, _, _ => rfl
  | k :: rest, a, ha, hks => by
    obtain ⟨hn, hk⟩ := hks k (List.mem_cons_self _ _)
    have ih := merge_next b n m rest (KPI.add a k)
      (by simp [KPI.add, ha, hk])
      (fun k2 h2 => hks k2 (List.mem_cons_of_mem _ h2))
    simp only [Benchmark.merge, mergeOne_next b n a k hn (by rw [ha, hk]), bind, Except.bind,
      ih, List.foldl_cons]

theorem merge_first (b : Benchmarker) (n : String) (k : KPI) (rest : List KPI)
    (hks : ∀ k2 ∈ k :: rest,
      k2.name = n ∧ k2.timeDistribution.length = b.timeDistributionThreshold.length) :
    Benchmark.merge b [] (k :: rest) =
      Except.ok [(n, (k :: rest).foldl KPI.add
        (KPI.zero n b.timeDistributionThreshold.length))] := by
  obtain ⟨hn, hk⟩ := hks k (List.mem_cons_self _ _)
  have ih := merge_next b n b.timeDistributionThreshold.length rest
    (KPI.add (KPI.zero n b.timeDistributionThreshold.length) k)
    (by simp [KPI.add, KPI.zero, hk])
    (fun k2 h2 => hks k2 (List.mem_cons_of_mem _ h2))
  simp only [Benchmark.merge, mergeOne_first b k hk, bind, Except.bind, hn, ih, List.foldl_cons]

theorem getD_zipWith_add64 (xs ys : List Int) (i : Nat) (hx : i < xs.length)
    (hy : i < ys.length) :
    (List.zipWith add64 xs ys).getD i 0 = wrap64 (xs.getD i 0 + ys.getD i 0) := by
  rw [List.getD_eq_getElem _ _ (by simp [hx, hy]), List.getD_eq_getElem _ _ hx,
    List.getD_eq_getElem _ _ hy, List.getElem_zipWith]
  rfl

theorem zipWith_add64_eq (m : Nat) (xs ys : List Int) (hx : xs.length = m)
    (hy : ys.length = m) :
    List.zipWith add64 xs ys
      = (List.range m).map (fun i => wrap64 (xs.getD i 0 + ys.getD i 0)) := by
  apply List.ext_getElem
  · simp [hx, hy]
  · intro i h1 h2
    have hi : i < m := by simpa [hx, hy] using h1
    rw [List.getElem_map, List.getElem_range, List.getElem_zipWith,
      List.getD_eq_getElem _ _ (by omega), List.getD_eq_getElem _ _ (by omega)]
    rfl

theorem columnSum_cons (k : KPI) (rest : List KPI) (i : Nat) :
    columnSum (k :: rest) i = k.timeDistribution.getD i 0 + columnSum rest i := by
  simp [columnSum]

theorem foldl_add_eq (m : Nat) :
    ∀ (rest : List KPI) (k a : KPI), a.timeDistribution.length = m →
      (∀ x ∈ k :: rest, x.timeDistribution.length = m) →
      (k :: rest).foldl KPI.add a =
        { name := a.name
          success := wrap64 (a.success + ((k :: rest).map KPI.success).sum)
          fail := wrap64 (a.fail + ((k :: rest).map KPI.fail).sum)
          totalTime := wrap64 (a.totalTime + ((k :: rest).map KPI.totalTime).sum)
          count := wrap64 (a.count + ((k :: rest).map KPI.count).sum)
          timeDistribution := (List.range m).map (fun i =>
            wrap64 (a.timeDistribution.getD i 0 + columnSum (k :: rest) i)) }
  | [], k, a, ha, hks => by
    have hk := hks k (List.mem_cons_self _ _)
    simp only [List.foldl_cons, List.foldl_nil, KPI.add, add64, List.map_cons, List.map_nil,
      List.sum_cons, List.sum_nil, add_zero, columnSum]
    rw [zipWith_add64_eq m _ _ ha hk]
  | k2 :: rest, k, a, ha, hks => by
    have hk := hks k (List.mem_cons_self _ _)
    have ih := foldl_add_eq m rest k2 (KPI.add a k) (by simp [KPI.add, ha, hk])
      (fun x hx => hks x (List.mem_cons_of_mem _ hx))
    rw [List.foldl_cons, ih]
    have htd : (List.range m).map (fun i =>
          wrap64 ((KPI.add a k).timeDistribution.getD i 0 + columnSum (k2 :: rest) i))
        = (List.range m).map (fun i =>
          wrap64 (a.timeDistribution.getD i 0 + columnSum (k :: k2 :: rest) i)) := by
      apply List.map_congr_left
      intro i hi
      have hi2 : i < m := List.mem_range.mp hi
      rw [columnSum_cons k (k2 :: rest)]
      show wrap64 ((List.zipWith add64 a.timeDistribution k.timeDistribution).getD i 0 + _) = _
      rw [getD_zipWith_add64 _ _ i (by omega) (by omega), wrap64_add_wrap64, add_assoc]
    rw [htd]
    simp only [KPI.add, add64, wrap64_add_wrap64, List.map_cons, List.sum_cons, add_assoc]

theorem merge_eq_total (b : Benchmarker) (n : String) (kpis : List KPI) (hne : kpis ≠ [])
    (hks : ∀ k ∈ kpis,
      k.name = n ∧ k.timeDistribution.length = b.timeDistributionThreshold.length) :
    Benchmark.merge b [] kpis
      = Except.ok [(n, KPI.total n b.timeDistributionThreshold.length kpis)] := by
  cases kpis with
  | nil => exact absurd rfl hne
  | cons k rest =>
    rw [merge_first b n k rest hks,
      foldl_add_eq b.timeDistributionThreshold.length rest k _ (by simp [KPI.zero])
        (fun x hx => (hks x hx).2)]
    have h0 : ∀ i, (KPI.zero n b.timeDistributionThreshold.length).timeDistribution.getD i 0
        = 0 := by
      intro i
      simp only [KPI.zero, List.getD_eq_getElem?_getD, List.getElem?_replicate]
      split <;> rfl
    simp only [h0, zero_add, KPI.total]
    simp [KPI.zero]

theorem wrap64_of_fits {x : Int} (h : Fits64 x) : wrap64 x = x :=
  wrap64_of_inRange h.1 h.2

theorem total_perm (n : String) (m : Nat) {ks1 ks2 : List KPI} (h : ks1.Perm ks2) :
    KPI.total n m ks1 = KPI.total n m ks2 := by
  unfold KPI.total columnSum
  simp only [(h.map KPI.success).sum_eq, (h.map KPI.fail).sum_eq,
    (h.map KPI.totalTime).sum_eq, (h.map KPI.count).sum_eq]
  congr 1
  apply List.map_congr_left
  intro i _
  rw [(h.map (fun k => k.timeDistribution.getD i 0)).sum_eq]

/-! ## C5: additivity of the merge -/

/-- C5 (KPI additivity): for `K ≥ 1` KPI records sharing one name, with bucket arrays
of the thresholds' length, the merge loop of `Benchmark` ends with one entry under
that name, whose `success`, `fail`, `totalTime` and every bucket equal the sum of
the inputs in Go's 64-bit arithmetic (the mathematical sum reduced by `wrap64`, and
exactly the mathematical sum whenever that sum fits in 64 bits); the result is the
same for every permutation of the input list. -/
theorem merge_additive (b : Benchmarker) (n : String) (kpis : List KPI) (hne : kpis ≠ [])
    (hks : ∀ k ∈ kpis,
      k.name = n ∧ k.timeDistribution.length = b.timeDistributionThreshold.length) :
    ∃ agg : KPI, Benchmark.merge b [] kpis = Except.ok [(n, agg)] ∧
      agg.success = wrap64 (kpis.map KPI.success).sum ∧
      agg.fail = wrap64 (kpis.map KPI.fail).sum ∧
      agg.totalTime = wrap64 (kpis.map KPI.totalTime).sum ∧
      agg.timeDistribution.length = b.timeDistributionThreshold.length ∧
      (∀ i : Nat, i < b.timeDistributionThreshold.length →
        agg.timeDistribution.getD i 0
          = wrap64 (kpis.map (fun k => k.timeDistribution.getD i 0)).sum) ∧
      (Fits64 (kpis.map KPI.success).sum → agg.success = (kpis.map KPI.success).sum) ∧
      (Fits64 (kpis.map KPI.fail).sum → agg.fail = (kpis.map KPI.fail).sum) ∧
      (Fits64 (kpis.map KPI.totalTime).sum →
        agg.totalTime = (kpis.map KPI.totalTime).sum) ∧
      (∀ i : Nat, i < b.timeDistributionThreshold.length →
        Fits64 (kpis.map (fun k => k.timeDistribution.getD i 0)).sum →
        agg.timeDistribution.getD i 0
          = (kpis.map (fun k => k.timeDistribution.getD i 0)).sum) ∧
      ∀ kpis2 : List KPI, kpis2.Perm kpis →
        Benchmark.merge b [] kpis2 = Benchmark.merge b [] kpis := by
  have hcol : ∀ i : Nat, i < b.timeDistributionThreshold.length →
      (KPI.total n b.timeDistributionThreshold.length kpis).timeDistribution.getD i 0
        = wrap64 (kpis.map (fun k => k.timeDistribution.getD i 0)).sum := by
    intro i hi
    rw [List.getD_eq_getElem _ _ (by simp [KPI.total, hi])]
    simp [KPI.total, columnSum]
  refine ⟨KPI.total n b.timeDistributionThreshold.length kpis,
    merge_eq_total b n kpis hne hks, rfl, rfl, rfl, by simp [KPI.total], hcol,
    fun h => wrap64_of_fits h, fun h => wrap64_of_fits h, fun h => wrap64_of_fits h,
    fun i hi h => by rw [hcol i hi, wrap64_of_fits h], ?_⟩
  intro kpis2 hp
  have hne2 : kpis2 ≠ [] := fun h => hne (by rw [h] at hp; exact hp.symm.eq_nil)
  rw [merge_eq_total b n kpis hne hks,
    merge_eq_total b n kpis2 hne2 (fun k hk => hks k (hp.subset hk)), total_perm n _ hp]

/-- Witness of C5 on three records named `http` with five buckets. -/
theorem merge_additive_witness :
    (sampleKPIs ≠ [] ∧
      ∀ k ∈ sampleKPIs, k.name = "http" ∧
        k.timeDistribution.length = sampleBenchmarker.timeDistributionThreshold.length) ∧
    ∃ agg : KPI, Benchmark.merge sampleBenchmarker [] sampleKPIs = Except.ok [("http", agg)] ∧
      agg.success = wrap64 (sampleKPIs.map KPI.success).sum ∧
      agg.fail = wrap64 (sampleKPIs.map KPI.fail).sum ∧
      agg.totalTime = wrap64 (sampleKPIs.map KPI.totalTime).sum ∧
      agg.timeDistribution.length = sampleBenchmarker.timeDistributionThreshold.length ∧
      (∀ i : Nat, i < sampleBenchmarker.timeDistributionThreshold.length →
        agg.timeDistribution.getD i 0
          = wrap64 (sampleKPIs.map (fun k => k.timeDistribution.getD i 0)).sum) ∧
      (Fits64 (sampleKPIs.map KPI.success).sum →
        agg.success = (sampleKPIs.map KPI.success).sum) ∧
      (Fits64 (sampleKPIs.map KPI.fail).sum → agg.fail = (sampleKPIs.map KPI.fail).sum) ∧
      (Fits64 (sampleKPIs.map KPI.totalTime).sum →
        agg.totalTime = (sampleKPIs.map KPI.totalTime).sum) ∧
      (∀ i : Nat, i < sampleBenchmarker.timeDistributionThreshold.length →
        Fits64 (sampleKPIs.map (fun k => k.timeDistribution.getD i 0)).sum →
        agg.timeDistribution.getD i 0
          = (sampleKPIs.map (fun k => k.timeDistribution.getD i 0)).sum) ∧
      ∀ kpis2 : List KPI, kpis2.Perm sampleKPIs →
        Benchmark.merge sampleBenchmarker [] kpis2
          = Benchmark.merge sampleBenchmarker [] sampleKPIs :=
  ⟨⟨by decide, by decide⟩, merge_additive sampleBenchmarker "http" sampleKPIs (by decide)
    (by decide)⟩

/-! ## The loop of `BenchmarkOnce` -/

theorem loop_eq_foldl (thresholds : List Int) (get : Nat → String → GetResult) :
    ∀ (infos : List URLInfo) (j : Nat) (st : LoopState),
      BenchmarkOnce.loop thresholds get j infos st
        = (BenchmarkOnce.outcomes get j infos).foldl (BenchmarkOnce.step thresholds) st
  | [], _, _ => rfl
  | info :: rest, j, st => by
    simp only [BenchmarkOnce.loop, BenchmarkOnce.outcomes, List.foldl_cons]
    exact loop_eq_foldl thresholds get rest (j + 1) _

theorem outcomes_length (get : Nat → String → GetResult) :
    ∀ (infos : List URLInfo) (k : Nat), (BenchmarkOnce.outcomes get k infos).length = infos.length
  | [], _ => rfl
  | _ :: rest, k => by simp [BenchmarkOnce.outcomes, outcomes_length get rest (k + 1)]

theorem outcomes_append (get : Nat → String → GetResult) :
    ∀ (xs ys : List URLInfo) (k : Nat),
      BenchmarkOnce.outcomes get k (xs ++ ys)
        = BenchmarkOnce.outcomes get k xs ++ BenchmarkOnce.outcomes get (k + xs.length) ys
  | [], ys, k => by simp [BenchmarkOnce.outcomes]
  | x :: xs, ys, k => by
    have ih := outcomes_append get xs ys (k + 1)
    rw [show k + 1 + xs.length = k + (x :: xs).length by simp; omega] at ih
    rw [List.cons_append]
    simp only [BenchmarkOnce.outcomes, ih, List.cons_append]

theorem outcomes_shift (net : Nat → String → GetResult) (lo : Nat) :
    ∀ (xs : List URLInfo) (k : Nat),
      BenchmarkOnce.outcomes (fun j => net (lo + j)) k xs
        = BenchmarkOnce.outcomes net (lo + k) xs
  | [], _ => rfl
  | x :: xs, k => by
    simp only [BenchmarkOnce.outcomes, outcomes_shift net lo xs (k + 1)]
    rfl

theorem bump_eq (elaspe : Int) :
    ∀ (cs ts : List Int), BenchmarkOnce.bump elaspe cs ts
      = List.zipWith (fun c t => BenchmarkOnce.bucketStep t c (GetResult.response elaspe)) cs ts
  | [], _ => by simp [BenchmarkOnce.bump]
  | _ :: _, [] => by simp [BenchmarkOnce.bump]
  | c :: cs, t :: ts => by
    simp only [BenchmarkOnce.bump, List.zipWith, bump_eq elaspe cs ts,
      BenchmarkOnce.bucketStep, GetResult.under, decide_eq_true_eq]

theorem zipWith_zipWith_left {α β : Type} (F G : α → β → α) :
    ∀ (cs : List α) (ts : List β),
      List.zipWith F (List.zipWith G cs ts) ts = List.zipWith (fun c t => F (G c t) t) cs ts
  | [], _ => by simp
  | _ :: _, [] => by simp
  | c :: cs, t :: ts => by simp [zipWith_zipWith_left F G cs ts]

theorem zipWith_self_left {β : Type} (F : Int → β → Int) (h : ∀ c t, F c t = c) :
    ∀ (cs : List Int) (ts : List β), cs.length = ts.length → List.zipWith F cs ts = cs
  | [], _, _ => by simp
  | _ :: _, [], hl => by simp at hl
  | c :: cs, t :: ts, hl => by
    simp [h, zipWith_self_left F h cs ts (by simpa using hl)]

theorem foldl_step_timeDistribution (thresholds : List Int) :
    ∀ (obs : List GetResult) (st : LoopState),
      st.timeDistribution.length = thresholds.length →
      (obs.foldl (BenchmarkOnce.step thresholds) st).timeDistribution
        = List.zipWith (fun c t => obs.foldl (BenchmarkOnce.bucketStep t) c)
            st.timeDistribution thresholds
  | [], st, hl => by
    simp only [List.foldl_nil]
    exact (zipWith_self_left _ (fun _ _ => rfl) _ _ hl).symm
  | GetResult.transportError :: obs, st, hl => by
    simp only [List.foldl_cons, BenchmarkOnce.step]
    exact foldl_step_timeDistribution thresholds obs { st with fail := add64 st.fail 1 } hl
  | GetResult.response e :: obs, st, hl => by
    simp only [List.foldl_cons, BenchmarkOnce.step]
    rw [foldl_step_timeDistribution thresholds obs _ (by simp [bump_eq, hl]), bump_eq,
      zipWith_zipWith_left]

theorem foldl_bucketStep (t : Int) :
    ∀ (obs : List GetResult) (c : Int), wrap64 c = c →
      obs.foldl (BenchmarkOnce.bucketStep t) c = wrap64 (c + obs.countP (GetResult.under t))
  | [], c, hc => by simp [hc]
  | r :: obs, c, hc => by
    rw [List.foldl_cons, List.countP_cons]
    by_cases hr : r.under t = true
    · rw [foldl_bucketStep t obs _ (by
        simp only [BenchmarkOnce.bucketStep, hr, if_true, add64, wrap64_wrap64])]
      simp only [BenchmarkOnce.bucketStep, hr, if_true, add64, wrap64_add_wrap64]
      congr 1
      push_cast
      ring
    · rw [foldl_bucketStep t obs _ (by simpa [BenchmarkOnce.bucketStep, hr] using hc)]
      simp [BenchmarkOnce.bucketStep, hr]

theorem foldl_step_success (thresholds : List Int) :
    ∀ (obs : List GetResult) (st : LoopState), wrap64 st.success = st.success →
      (obs.foldl (BenchmarkOnce.step thresholds) st).success
        = wrap64 (st.success + obs.countP GetResult.isResponse)
  | [], st, h => by simp [h]
  | GetResult.transportError :: obs, st, h => by
    rw [List.foldl_cons, foldl_step_success thresholds obs _ (by simpa [BenchmarkOnce.step] using h)]
    simp [BenchmarkOnce.step, GetResult.isResponse]
  | GetResult.response e :: obs, st, h => by
    rw [List.foldl_cons, foldl_step_success thresholds obs _ (by
      simp only [BenchmarkOnce.step, add64, wrap64_wrap64])]
    simp only [BenchmarkOnce.step, add64, wrap64_add_wrap64, List.countP_cons,
      GetResult.isResponse, if_true]
    congr 1
    push_cast
    ring

theorem foldl_step_fail (thresholds : List Int) :
    ∀ (obs : List GetResult) (st : LoopState), wrap64 st.fail = st.fail →
      (obs.foldl (BenchmarkOnce.step thresholds) st).fail
        = wrap64 (st.fail + obs.countP (fun r => !r.isResponse))
  | [], st, h => by simp [h]
  | GetResult.transportError :: obs, st, h => by
    rw [List.foldl_cons, foldl_step_fail thresholds obs _ (by
      simp only [BenchmarkOnce.step, add64, wrap64_wrap64])]
    simp only [BenchmarkOnce.step, add64, wrap64_add_wrap64, List.countP_cons,
      GetResult.isResponse, Bool.not_false, if_true]
    congr 1
    push_cast
    ring
  | GetResult.response e :: obs, st, h => by
    rw [List.foldl_cons, foldl_step_fail thresholds obs _ (by simpa [BenchmarkOnce.step] using h)]
    simp [BenchmarkOnce.step, GetResult.isResponse]

theorem foldl_step_totalTime (thresholds : List Int) :
    ∀ (obs : List GetResult) (st : LoopState), wrap64 st.totalTime = st.totalTime →
      (obs.foldl (BenchmarkOnce.step thresholds) st).totalTime
        = wrap64 (st.totalTime + (obs.filterMap GetResult.elapsed?).sum)
  | [], st, h => by simp [h]
  | GetResult.transportError :: obs, st, h => by
    rw [List.foldl_cons, foldl_step_totalTime thresholds obs _ (by
      simpa [BenchmarkOnce.step] using h)]
    simp [BenchmarkOnce.step, GetResult.elapsed?]
  | GetResult.response e :: obs, st, h => by
    rw [List.foldl_cons, foldl_step_totalTime thresholds obs _ (by
      simp only [BenchmarkOnce.step, add64, wrap64_wrap64])]
    simp only [BenchmarkOnce.step, add64, wrap64_add_wrap64, GetResult.elapsed?,
      List.filterMap_cons, List.sum_cons, add_assoc]

theorem wrap64_zero : wrap64 0 = 0 := by decide

theorem benchmarkOnce_eq (b : Benchmarker) (infos : List URLInfo)
    (get : Nat → String → GetResult) :
    b.BenchmarkOnce infos get
      = KPI.ofOutcomes b.timeDistributionThreshold (BenchmarkOnce.outcomes get 0 infos) := by
  unfold Benchmarker.BenchmarkOnce KPI.ofOutcomes
  simp only [loop_eq_foldl]
  rw [foldl_step_success _ _ _ wrap64_zero, foldl_step_fail _ _ _ wrap64_zero,
    foldl_step_totalTime _ _ _ wrap64_zero, foldl_step_timeDistribution _ _ _ (by simp)]
  simp only [zero_add]
  congr 1
  have h : ∀ (c t : Int), wrap64 c = c →
      (BenchmarkOnce.outcomes get 0 infos).foldl (BenchmarkOnce.bucketStep t) c
        = wrap64 (c + (BenchmarkOnce.outcomes get 0 infos).countP (GetResult.under t)) :=
    fun c t hc => foldl_bucketStep t _ c hc
  generalize BenchmarkOnce.outcomes get 0 infos = obs at h ⊢
  generalize b.timeDistributionThreshold = ts
  induction ts with
  | nil => rfl
  | cons t ts ih =>
    simp only [List.length_cons, List.replicate_succ, List.zipWith, List.map_cons, ih,
      h 0 t wrap64_zero, zero_add]

theorem countP_under_eq (t : Int) :
    ∀ obs : List GetResult,
      obs.countP (GetResult.under t)
        = (obs.filterMap GetResult.elapsed?).countP (fun e => decide (e < t))
  | [] => rfl
  | GetResult.transportError :: obs => by
    simp [GetResult.under, GetResult.elapsed?, countP_under_eq t obs]
  | GetResult.response e :: obs => by
    simp [GetResult.under, GetResult.elapsed?, List.countP_cons, countP_under_eq t obs]

theorem countP_response_add_fail (obs : List GetResult) :
    obs.countP GetResult.isResponse + obs.countP (fun r => !r.isResponse) = obs.length := by
  induction obs with
  | nil => rfl
  | cons r obs ih =>
    rw [List.countP_cons, List.countP_cons, List.length_cons]
    have h1 : GetResult.isResponse GetResult.transportError = false := rfl
    have h2 : ∀ e, GetResult.isResponse (GetResult.response e) = true := fun _ => rfl
    cases r
    · simp only [h1, Bool.not_false, if_true, Bool.false_eq_true, if_false]
      omega
    · simp only [h2, Bool.not_true, if_true, Bool.false_eq_true, if_false]
      omega

theorem wrap64_natCast {n : Nat} (h : (n : Int) < 2 ^ 63) : wrap64 (n : Int) = n :=
  wrap64_of_inRange (by have := Int.ofNat_nonneg n; omega) h

theorem wrap64_add_congr (a b c : Int) (h : wrap64 b = wrap64 c) :
    wrap64 (a + b) = wrap64 (a + c) := by
  rw [add_comm a b, add_comm a c, ← wrap64_add_wrap64 b, ← wrap64_add_wrap64 c, h]

theorem wrap64_sum_map {α : Type} (f : α → Int) :
    ∀ l : List α, wrap64 (l.map (fun x => wrap64 (f x))).sum = wrap64 (l.map f).sum
  | [] => rfl
  | x :: l => by
    simp only [List.map_cons, List.sum_cons]
    rw [wrap64_add_wrap64]
    exact wrap64_add_congr _ _ _ (wrap64_sum_map f l)

theorem sum_map_countP (p : GetResult → Bool) (l : List (List GetResult)) :
    (l.map (fun obs => ((obs.countP p : Nat) : Int))).sum = ((l.flatten.countP p : Nat) : Int) := by
  induction l with
  | nil => rfl
  | cons obs l ih => simp [List.countP_append, ih]

theorem sum_map_elapsed (l : List (List GetResult)) :
    (l.map (fun obs => (obs.filterMap GetResult.elapsed?).sum)).sum
      = (l.flatten.filterMap GetResult.elapsed?).sum := by
  induction l with
  | nil => rfl
  | cons obs l ih => simp [List.filterMap_append, ih]

theorem total_ofOutcomes (thresholds : List Int) (l : List (List GetResult)) :
    KPI.total "http" thresholds.length (l.map (KPI.ofOutcomes thresholds))
      = { KPI.ofOutcomes thresholds l.flatten with count := wrap64 (l.length : Int) } := by
  have hs := wrap64_sum_map (fun obs : List GetResult =>
    ((obs.countP GetResult.isResponse : Nat) : Int)) l
  have hf := wrap64_sum_map (fun obs : List GetResult =>
    ((obs.countP (fun r => !r.isResponse) : Nat) : Int)) l
  have ht := wrap64_sum_map (fun obs : List GetResult =>
    (obs.filterMap GetResult.elapsed?).sum) l
  rw [sum_map_countP] at hs hf
  rw [sum_map_elapsed] at ht
  have hc : (l.map (fun _ => (1 : Int))).sum = (l.length : Int) := by
    induction l with
    | nil => rfl
    | cons _ l ih => simp [ih]; ring
  have htd : (List.range thresholds.length).map (fun i =>
        wrap64 (columnSum (l.map (KPI.ofOutcomes thresholds)) i))
      = thresholds.map (fun t => wrap64 (l.flatten.countP (GetResult.under t))) := by
    apply List.ext_getElem
    · simp
    · intro i h1 h2
      have hi : i < thresholds.length := by simpa using h1
      rw [List.getElem_map, List.getElem_map, List.getElem_range]
      have := wrap64_sum_map (fun obs : List GetResult =>
        ((obs.countP (GetResult.under thresholds[i]) : Nat) : Int)) l
      rw [sum_map_countP] at this
      have hcol : columnSum (l.map (KPI.ofOutcomes thresholds)) i
          = (l.map (fun obs : List GetResult =>
              wrap64 ((obs.countP (GetResult.under thresholds[i]) : Nat) : Int))).sum := by
        unfold columnSum
        rw [List.map_map]
        apply congrArg List.sum
        apply List.map_congr_left
        intro obs _
        show (thresholds.map (fun t => wrap64 (obs.countP (GetResult.under t)))).getD i 0 = _
        rw [List.getD_eq_getElem _ _ (by simpa using hi), List.getElem_map]
      rw [hcol, this]
  have e1 : (l.map (KPI.ofOutcomes thresholds)).map KPI.success
      = l.map (fun obs => wrap64 ((obs.countP GetResult.isResponse : Nat) : Int)) := by
    rw [List.map_map]; rfl
  have e2 : (l.map (KPI.ofOutcomes thresholds)).map KPI.fail
      = l.map (fun obs => wrap64 ((obs.countP (fun r => !r.isResponse) : Nat) : Int)) := by
    rw [List.map_map]; rfl
  have e3 : (l.map (KPI.ofOutcomes thresholds)).map KPI.totalTime
      = l.map (fun obs => wrap64 (obs.filterMap GetResult.elapsed?).sum) := by
    rw [List.map_map]; rfl
  have e4 : (l.map (KPI.ofOutcomes thresholds)).map KPI.count = l.map (fun _ => (1 : Int)) := by
    rw [List.map_map]; rfl
  unfold KPI.total
  rw [htd, e1, e2, e3, e4, hs, hf, ht, hc]
  rfl

/-! ## The workers of `Benchmark` and the aggregate -/

theorem worker_eq (b : Benchmarker) (net : Nat → String → GetResult) (hN : 1 ≤ b.workerNum)
    (hR : b.workerNum * b.infos.length < 2 ^ 63) (i : Nat) (hi : i < b.workerNum.toNat) :
    Benchmark.worker b net i
      = Except.ok (KPI.ofOutcomes b.timeDistributionThreshold
          (Benchmark.workerOutcomes b net i)) := by
  unfold Benchmark.worker
  rw [bounds_eq b hN hR i hi, slice_eq b hN hR i hi]
  simp only [bind, Except.bind, pure, Except.pure, Int.toNat_ofNat]
  rw [benchmarkOnce_eq, outcomes_shift]
  rfl

theorem workers_eq (b : Benchmarker) (net : Nat → String → GetResult) (hN : 1 ≤ b.workerNum)
    (hR : b.workerNum * b.infos.length < 2 ^ 63) (is : List Nat)
    (his : ∀ i ∈ is, i < b.workerNum.toNat) :
    Benchmark.workers b net is
      = Except.ok (is.map (fun i => KPI.ofOutcomes b.timeDistributionThreshold
          (Benchmark.workerOutcomes b net i))) := by
  induction is with
  | nil => rfl
  | cons i rest ih =>
    have hi := his i (List.mem_cons_self _ _)
    have hrest := ih (fun j hj => his j (List.mem_cons_of_mem _ hj))
    simp only [Benchmark.workers, worker_eq b net hN hR i hi, hrest, bind, Except.bind, pure,
      Except.pure, List.map_cons]

theorem outcomes_pieces (net : Nat → String → GetResult) (xs : List URLInfo) (f : Nat → Nat)
    (h0 : f 0 = 0) (hmono : ∀ i, f i ≤ f (i + 1)) (n : Nat) (hn : f n ≤ xs.length) :
    ((List.range n).map (fun i =>
        BenchmarkOnce.outcomes net (f i) ((xs.drop (f i)).take (f (i + 1) - f i)))).flatten
      = BenchmarkOnce.outcomes net 0 (xs.take (f n)) := by
  induction n with
  | zero => simp [h0, BenchmarkOnce.outcomes]
  | succ n ih =>
    have hle := hmono n
    rw [List.range_succ, List.map_append, List.flatten_append, ih (by omega)]
    have e : f (n + 1) = f n + (f (n + 1) - f n) := by omega
    conv_rhs => rw [e, List.take_add, outcomes_append]
    simp only [List.map_cons, List.map_nil, List.flatten_cons, List.flatten_nil,
      List.append_nil, List.length_take, zero_add]
    rw [Nat.min_eq_left (by omega)]

theorem workerOutcomes_flatten (b : Benchmarker) (net : Nat → String → GetResult)
    (hN : 0 < b.workerNum.toNat) :
    ((List.range b.workerNum.toNat).map (Benchmark.workerOutcomes b net)).flatten
      = BenchmarkOnce.outcomes net 0 b.infos := by
  have h := outcomes_pieces net b.infos (bnd b.infos.length b.workerNum.toNat) (bnd_zero _ _)
    (fun i => bnd_mono _ _ (Nat.le_add_right i 1)) b.workerNum.toNat
    (by rw [bnd_self _ _ hN])
  rw [bnd_self _ _ hN, List.take_length] at h
  exact h

theorem filterMap_range_getElem? {α : Type} :
    ∀ ks : List α, (List.range ks.length).filterMap (fun i => ks[i]?) = ks
  | [] => rfl
  | k :: ks => by
    have ih := filterMap_range_getElem? ks
    rw [List.length_cons, List.range_succ_eq_map, List.filterMap_cons]
    simp only [List.getElem?_cons_zero, List.filterMap_map]
    have e : ((fun i => (k :: ks)[i]?) ∘ Nat.succ) = fun i => ks[i]? := by
      funext i
      simp [Function.comp]
    rw [e, ih]

theorem received_perm (ks : List KPI) (arrival : List Nat)
    (hA : arrival.Perm (List.range ks.length)) : (Benchmark.received ks arrival).Perm ks := by
  unfold Benchmark.received
  have h := hA.filterMap (fun i => ks[i]?)
  rwa [filterMap_range_getElem?] at h

theorem aggregate_eq (rt : Runtime) (b : Benchmarker) (net : Nat → String → GetResult)
    (arrival : List Nat) (hN : 1 ≤ b.workerNum) (hC : b.workerNum ≤ (rt.maxChan : Int))
    (hR : b.workerNum * b.infos.length < 2 ^ 63)
    (hA : arrival.Perm (List.range b.workerNum.toNat)) :
    Benchmark.aggregate rt b net arrival
      = Except.ok [("http",
          { KPI.ofOutcomes b.timeDistributionThreshold (BenchmarkOnce.outcomes net 0 b.infos)
            with count := wrap64 (b.workerNum.toNat : Int) })] := by
  have hNpos : 0 < b.workerNum.toNat := by omega
  unfold Benchmark.aggregate Benchmark.makeChan
  rw [if_neg (by omega), workers_eq b net hN hR _ (fun i hi => List.mem_range.mp hi)]
  simp only [bind, Except.bind]
  have hks : ((List.range b.workerNum.toNat).map (fun i =>
        KPI.ofOutcomes b.timeDistributionThreshold (Benchmark.workerOutcomes b net i)))
      = ((List.range b.workerNum.toNat).map (Benchmark.workerOutcomes b net)).map
          (KPI.ofOutcomes b.timeDistributionThreshold) := by
    rw [List.map_map]; rfl
  rw [hks]
  generalize hl : (List.range b.workerNum.toNat).map (Benchmark.workerOutcomes b net) = l
  have hlen : l.length = b.workerNum.toNat := by rw [← hl]; simp
  have hperm := received_perm (l.map (KPI.ofOutcomes b.timeDistributionThreshold)) arrival
    (by simpa [hlen] using hA)
  have hall : ∀ k ∈ l.map (KPI.ofOutcomes b.timeDistributionThreshold),
      k.name = "http" ∧ k.timeDistribution.length = b.timeDistributionThreshold.length := by
    intro k hk
    obtain ⟨obs, _, rfl⟩ := List.mem_map.mp hk
    simp [KPI.ofOutcomes]
  have hne : Benchmark.received (l.map (KPI.ofOutcomes b.timeDistributionThreshold)) arrival
      ≠ [] := by
    intro h
    rw [h] at hperm
    have := hperm.length_eq
    simp [hlen] at this
    omega
  rw [merge_eq_total b "http" _ hne (fun k hk => hall k (hperm.subset hk)),
    total_perm "http" _ hperm, total_ofOutcomes, hlen, ← hl, workerOutcomes_flatten b net hNpos]

/-! ## C6: request accounting -/

/-- C6 (end-to-end request accounting): for `L` descriptors, a worker count `N ≥ 1`
that the runtime accepts as a channel capacity (with `N * L` inside the 64-bit
range), any outcomes of the requests and any order of arrival of the workers' KPIs,
the merge of `Benchmark` ends with one aggregate, named `http`, whose `success` is
the number of requests that got a response, whose `fail` is the number of requests
that hit a transport error, and `success + fail = L`. -/
theorem request_accounting (rt : Runtime) (b : Benchmarker)
    (net : Nat → String → GetResult) (arrival : List Nat) (hN : 1 ≤ b.workerNum)
    (hC : b.workerNum ≤ (rt.maxChan : Int))
    (hR : b.workerNum * b.infos.length < 2 ^ 63)
    (hA : arrival.Perm (List.range b.workerNum.toNat)) :
    ∃ agg : KPI, Benchmark.aggregate rt b net arrival = Except.ok [("http", agg)] ∧
      agg.success = ((BenchmarkOnce.outcomes net 0 b.infos).countP GetResult.isResponse : Nat) ∧
      agg.fail
        = ((BenchmarkOnce.outcomes net 0 b.infos).countP (fun r => !r.isResponse) : Nat) ∧
      agg.success + agg.fail = (b.infos.length : Int) := by
  have hL : (b.infos.length : Int) < 2 ^ 63 := by
    have h0 : (0 : Int) ≤ b.infos.length := Int.ofNat_nonneg _
    have : (b.infos.length : Int) ≤ b.workerNum * b.infos.length :=
      le_mul_of_one_le_left h0 hN
    omega
  have hlen := outcomes_length net b.infos 0
  have hsum := countP_response_add_fail (BenchmarkOnce.outcomes net 0 b.infos)
  have h1 : ((BenchmarkOnce.outcomes net 0 b.infos).countP GetResult.isResponse : Int)
      < 2 ^ 63 := by omega
  have h2 : ((BenchmarkOnce.outcomes net 0 b.infos).countP (fun r => !r.isResponse) : Int)
      < 2 ^ 63 := by omega
  refine ⟨_, aggregate_eq rt b net arrival hN hC hR hA, wrap64_natCast h1, wrap64_natCast h2, ?_⟩
  show wrap64 _ + wrap64 _ = _
  rw [wrap64_natCast h1, wrap64_natCast h2]
  omega

/-- Witness of C6: six descriptors over three workers, every request answered. -/
theorem request_accounting_witness :
    (1 ≤ sixURLs.workerNum ∧ sixURLs.workerNum ≤ (sampleRuntime.maxChan : Int) ∧
      sixURLs.workerNum * sixURLs.infos.length < 2 ^ 63 ∧
      [2, 0, 1].Perm (List.range sixURLs.workerNum.toNat)) ∧
    ∃ agg : KPI, Benchmark.aggregate sampleRuntime sixURLs allFast [2, 0, 1] = Except.ok [("http", agg)] ∧
      agg.success
        = ((BenchmarkOnce.outcomes allFast 0 sixURLs.infos).countP GetResult.isResponse : Nat) ∧
      agg.fail
        = ((BenchmarkOnce.outcomes allFast 0 sixURLs.infos).countP
            (fun r => !r.isResponse) : Nat) ∧
      agg.success + agg.fail = (sixURLs.infos.length : Int) :=
  ⟨⟨by decide, by decide, by decide, by decide⟩,
    request_accounting sampleRuntime sixURLs allFast [2, 0, 1] (by decide) (by decide)
      (by decide) (by decide)⟩

/-- The first scenario of the specification, evaluated: six descriptors, three
workers, all requests answered in 20 ms. -/
theorem scenario_six_urls :
    Benchmark.aggregate sampleRuntime sixURLs allFast [2, 0, 1]
      = Except.ok [("http",
          { name := "http", success := 6, fail := 0, totalTime := 120000000, count := 3
            timeDistribution := [6, 6, 6, 6, 6] })] := by
  rfl

/-- The second scenario of the specification, evaluated: four descriptors, one
worker, two requests refused. -/
theorem scenario_four_urls :
    Benchmark.aggregate sampleRuntime fourURLs halfRefused [0]
      = Except.ok [("http",
          { name := "http", success := 2, fail := 2, totalTime := 140000000, count := 1
            timeDistribution := [0, 2, 2, 2, 2] })] := by
  rfl

/-! ## C7: the buckets of one worker -/

/-- C7 (cumulative bucket counting): for every slice of descriptors (of a length
representable in 64 bits, as every Go slice is), every threshold list and every
outcomes of the requests, the KPI returned by `BenchmarkOnce` has as many buckets as
there are thresholds, and bucket `i` is the number of requests that got a response
whose elapsed time is strictly less than threshold `i`.  A failed request changes no
bucket, and a response whose elapsed time equals the threshold leaves that bucket
unchanged. -/
theorem bucket_counts (b : Benchmarker) (infos : List URLInfo)
    (get : Nat → String → GetResult) (hlen : (infos.length : Int) < 2 ^ 63) :
    (b.BenchmarkOnce infos get).timeDistribution.length
        = b.timeDistributionThreshold.length ∧
      (∀ i : Nat, i < b.timeDistributionThreshold.length →
        (b.BenchmarkOnce infos get).timeDistribution.getD i 0
          = ((((BenchmarkOnce.outcomes get 0 infos).filterMap GetResult.elapsed?).countP
              (fun e => decide (e < b.timeDistributionThreshold.getD i 0)) : Nat) : Int)) ∧
      (∀ st : LoopState,
        (BenchmarkOnce.step b.timeDistributionThreshold st
          GetResult.transportError).timeDistribution = st.timeDistribution) ∧
      (∀ c t : Int, BenchmarkOnce.bump t [c] [t] = [c]) := by
  refine ⟨by simp [benchmarkOnce_eq, KPI.ofOutcomes], ?_, fun _ => rfl, ?_⟩
  · intro i hi
    rw [benchmarkOnce_eq]
    show (b.timeDistributionThreshold.map _).getD i 0 = _
    rw [List.getD_eq_getElem _ _ (by simpa using hi), List.getElem_map,
      List.getD_eq_getElem _ _ hi, countP_under_eq]
    apply wrap64_natCast
    have h1 := List.countP_le_length (fun e => decide (e < b.timeDistributionThreshold[i]))
      (l := (BenchmarkOnce.outcomes get 0 infos).filterMap GetResult.elapsed?)
    have h2 := List.length_filterMap_le GetResult.elapsed? (BenchmarkOnce.outcomes get 0 infos)
    have h3 := outcomes_length get infos 0
    omega
  · intro c t
    simp [BenchmarkOnce.bump]

/-- Witness of C7: four descriptors, two of them refused. -/
theorem bucket_counts_witness :
    ((fourURLs.infos.length : Int) < 2 ^ 63) ∧
    ((fourURLs.BenchmarkOnce fourURLs.infos halfRefused).timeDistribution.length
        = fourURLs.timeDistributionThreshold.length ∧
      (∀ i : Nat, i < fourURLs.timeDistributionThreshold.length →
        (fourURLs.BenchmarkOnce fourURLs.infos halfRefused).timeDistribution.getD i 0
          = ((((BenchmarkOnce.outcomes halfRefused 0 fourURLs.infos).filterMap
                GetResult.elapsed?).countP
              (fun e => decide (e < fourURLs.timeDistributionThreshold.getD i 0)) : Nat)
              : Int)) ∧
      (∀ st : LoopState,
        (BenchmarkOnce.step fourURLs.timeDistributionThreshold st
          GetResult.transportError).timeDistribution = st.timeDistribution) ∧
      (∀ c t : Int, BenchmarkOnce.bump t [c] [t] = [c])) :=
  ⟨by decide, bucket_counts fourURLs fourURLs.infos halfRefused (by decide)⟩

/-! ## C8: monotone buckets -/

theorem countP_under_mono {s t : Int} (h : s ≤ t) (obs : List GetResult) :
    obs.countP (GetResult.under s) ≤ obs.countP (GetResult.under t) := by
  apply List.countP_mono_left
  intro r _ hr
  cases r with
  | transportError => exact hr
  | response e =>
    simp only [GetResult.under, decide_eq_true_eq] at hr ⊢
    omega

theorem pairwise_getElem_le (ts : List Int) (hts : ts.Pairwise (fun s t => s ≤ t))
    (i j : Nat) (hij : i ≤ j) (hi : i < ts.length) (hj : j < ts.length) : ts[i] ≤ ts[j] := by
  rcases Nat.lt_or_ge i j with h | h
  · exact List.pairwise_iff_getElem.mp hts i j hi hj h
  · have e : i = j := by omega
    subst e
    exact le_refl _

theorem wrap64_countP_mono {s t : Int} (h : s ≤ t) (obs : List GetResult)
    (hlen : (obs.length : Int) < 2 ^ 63) :
    wrap64 ((obs.countP (GetResult.under s) : Nat) : Int)
      ≤ wrap64 ((obs.countP (GetResult.under t) : Nat) : Int) := by
  have hs := List.countP_le_length (GetResult.under s) (l := obs)
  have ht := List.countP_le_length (GetResult.under t) (l := obs)
  rw [wrap64_natCast (by omega), wrap64_natCast (by omega)]
  exact_mod_cast countP_under_mono h obs

theorem ofOutcomes_mono (thresholds : List Int)
    (hthr : thresholds.Pairwise (fun s t => s ≤ t)) (obs : List GetResult)
    (hlen : (obs.length : Int) < 2 ^ 63) (i j : Nat) (hij : i ≤ j)
    (hj : j < thresholds.length) :
    (KPI.ofOutcomes thresholds obs).timeDistribution.getD i 0
      ≤ (KPI.ofOutcomes thresholds obs).timeDistribution.getD j 0 := by
  have hi : i < thresholds.length := Nat.lt_of_le_of_lt hij hj
  show (thresholds.map _).getD i 0 ≤ (thresholds.map _).getD j 0
  rw [List.getD_eq_getElem _ _ (by simpa using hi), List.getD_eq_getElem _ _ (by simpa using hj),
    List.getElem_map, List.getElem_map]
  exact wrap64_countP_mono (pairwise_getElem_le thresholds hthr i j hij hi hj) obs hlen

/-- C8 (bucket monotonicity): for an ascending threshold list and any runs of
`BenchmarkOnce` (whose total number of requests is representable in 64 bits), the
bucket array of each KPI produced by `BenchmarkOnce` is non-decreasing across
indices, the merge loop of `Benchmark` applied to these KPIs succeeds, and the bucket
array of every aggregate it leaves in the map has the thresholds' length and is
non-decreasing across indices. -/
theorem buckets_monotone (b : Benchmarker)
    (hthr : b.timeDistributionThreshold.Pairwise (fun s t => s ≤ t))
    (runs : List (List URLInfo × (Nat → String → GetResult)))
    (hfit : (((runs.map (fun r => r.1.length)).sum : Nat) : Int) < 2 ^ 63) :
    (∀ r ∈ runs, ∀ i j : Nat, i ≤ j → j < b.timeDistributionThreshold.length →
      (b.BenchmarkOnce r.1 r.2).timeDistribution.getD i 0
        ≤ (b.BenchmarkOnce r.1 r.2).timeDistribution.getD j 0) ∧
    ∃ m : KPIMap,
      Benchmark.merge b [] (runs.map (fun r => b.BenchmarkOnce r.1 r.2)) = Except.ok m ∧
      ∀ e ∈ m, e.2.timeDistribution.length = b.timeDistributionThreshold.length ∧
        ∀ i j : Nat, i ≤ j → j < b.timeDistributionThreshold.length →
          e.2.timeDistribution.getD i 0 ≤ e.2.timeDistribution.getD j 0 := by
  have hmap : runs.map (fun r => b.BenchmarkOnce r.1 r.2)
      = (runs.map (fun r => BenchmarkOnce.outcomes r.2 0 r.1)).map
          (KPI.ofOutcomes b.timeDistributionThreshold) := by
    rw [List.map_map]
    apply List.map_congr_left
    intro r _
    exact benchmarkOnce_eq b r.1 r.2
  have htotal : ((runs.map (fun r => BenchmarkOnce.outcomes r.2 0 r.1)).flatten.length : Int)
      < 2 ^ 63 := by
    have e : (runs.map (fun r => BenchmarkOnce.outcomes r.2 0 r.1)).flatten.length
        = (runs.map (fun r => r.1.length)).sum := by
      rw [List.length_flatten, List.map_map]
      apply congrArg List.sum
      apply List.map_congr_left
      intro r _
      exact outcomes_length r.2 r.1 0
    rw [e]
    exact hfit
  constructor
  · intro r hr i j hij hj
    rw [benchmarkOnce_eq]
    refine ofOutcomes_mono _ hthr _ ?_ i j hij hj
    rw [outcomes_length]
    have : r.1.length ≤ (runs.map (fun r => r.1.length)).sum :=
      List.single_le_sum (fun _ _ => Nat.zero_le _) _ (List.mem_map_of_mem _ hr)
    omega
  · rw [hmap]
    cases hruns : runs with
    | nil => exact ⟨[], rfl, fun e he => absurd he (List.not_mem_nil _)⟩
    | cons r rest =>
      rw [← hruns]
      have hne : (runs.map (fun r => BenchmarkOnce.outcomes r.2 0 r.1)).map
          (KPI.ofOutcomes b.timeDistributionThreshold) ≠ [] := by
        rw [hruns]; simp
      have hall : ∀ k ∈ (runs.map (fun r => BenchmarkOnce.outcomes r.2 0 r.1)).map
          (KPI.ofOutcomes b.timeDistributionThreshold),
          k.name = "http" ∧
            k.timeDistribution.length = b.timeDistributionThreshold.length := by
        intro k hk
        obtain ⟨obs, _, rfl⟩ := List.mem_map.mp hk
        simp [KPI.ofOutcomes]
      refine ⟨_, merge_eq_total b "http" _ hne hall, ?_⟩
      intro e he
      rw [List.mem_singleton] at he
      subst he
      rw [total_ofOutcomes]
      refine ⟨by simp [KPI.ofOutcomes], fun i j hij hj => ?_⟩
      exact ofOutcomes_mono _ hthr _ htotal i j hij hj

/-- Witness of C8: the default thresholds, and the two halves of six descriptors. -/
theorem buckets_monotone_witness :
    (sixURLs.timeDistributionThreshold.Pairwise (fun s t => s ≤ t) ∧
      (((([(sixURLs.infos.take 3, halfRefused), (sixURLs.infos.drop 3, allFast)] :
          List (List URLInfo × (Nat → String → GetResult))).map
            (fun r => r.1.length)).sum : Nat) : Int) < 2 ^ 63) ∧
    ((∀ r ∈ ([(sixURLs.infos.take 3, halfRefused), (sixURLs.infos.drop 3, allFast)] :
          List (List URLInfo × (Nat → String → GetResult))),
        ∀ i j : Nat, i ≤ j → j < sixURLs.timeDistributionThreshold.length →
          (sixURLs.BenchmarkOnce r.1 r.2).timeDistribution.getD i 0
            ≤ (sixURLs.BenchmarkOnce r.1 r.2).timeDistribution.getD j 0) ∧
      ∃ m : KPIMap,
        Benchmark.merge sixURLs []
          (([(sixURLs.infos.take 3, halfRefused), (sixURLs.infos.drop 3, allFast)] :
            List (List URLInfo × (Nat → String → GetResult))).map
              (fun r => sixURLs.BenchmarkOnce r.1 r.2)) = Except.ok m ∧
        ∀ e ∈ m, e.2.timeDistribution.length = sixURLs.timeDistributionThreshold.length ∧
          ∀ i j : Nat, i ≤ j → j < sixURLs.timeDistributionThreshold.length →
            e.2.timeDistribution.getD i 0 ≤ e.2.timeDistribution.getD j 0) :=
  ⟨⟨by decide, by decide⟩,
    buckets_monotone sixURLs (by decide)
      [(sixURLs.infos.take 3, halfRefused), (sixURLs.infos.drop 3, allFast)] (by decide)⟩

/-! ## C9: the sample count -/

/-- C9, counterexample: with three workers the aggregate left by the merge of
`Benchmark` has `count = 3`, not `1`. -/
theorem sample_count_counterexample :
    ∃ agg : KPI, Benchmark.aggregate sampleRuntime sixURLs allFast [0, 1, 2] = Except.ok [("http", agg)] ∧
      agg.count = 3 ∧ agg.count ≠ 1 :=
  ⟨_, rfl, rfl, by decide⟩

/-- C9 (sample count, as the code has it): every KPI returned by `BenchmarkOnce` has
`count = 1`, and for a worker count `N ≥ 1` that the runtime accepts as a channel
capacity (with `N * L` inside the 64-bit range) the aggregate left by the merge of
`Benchmark` has `count = N`, the sum of the counts of the `N` workers. -/
theorem sample_count (rt : Runtime) (b : Benchmarker) (infos : List URLInfo)
    (get net : Nat → String → GetResult) (arrival : List Nat) (hN : 1 ≤ b.workerNum)
    (hC : b.workerNum ≤ (rt.maxChan : Int)) (hR : b.workerNum * b.infos.length < 2 ^ 63)
    (hA : arrival.Perm (List.range b.workerNum.toNat)) :
    (b.BenchmarkOnce infos get).count = 1 ∧
    ∃ agg : KPI, Benchmark.aggregate rt b net arrival = Except.ok [("http", agg)] ∧
      agg.count = b.workerNum := by
  refine ⟨rfl, _, aggregate_eq rt b net arrival hN hC hR hA, ?_⟩
  show wrap64 _ = _
  have e : ((b.workerNum.toNat : Nat) : Int) = b.workerNum := Int.toNat_of_nonneg (by omega)
  rw [e]
  have hlt : ((rt.maxChan : Nat) : Int) < 2 ^ 45 := by exact_mod_cast rt.maxChan_lt
  exact wrap64_of_inRange (by omega) (by omega)

/-- Witness of C9 (as the code has it): six descriptors over three workers. -/
theorem sample_count_witness :
    (1 ≤ sixURLs.workerNum ∧ sixURLs.workerNum ≤ (sampleRuntime.maxChan : Int) ∧
      sixURLs.workerNum * sixURLs.infos.length < 2 ^ 63 ∧
      [1, 2, 0].Perm (List.range sixURLs.workerNum.toNat)) ∧
    ((sixURLs.BenchmarkOnce sixURLs.infos halfRefused).count = 1 ∧
      ∃ agg : KPI, Benchmark.aggregate sampleRuntime sixURLs allFast [1, 2, 0] = Except.ok [("http", agg)] ∧
        agg.count = sixURLs.workerNum) :=
  ⟨⟨by decide, by decide, by decide, by decide⟩,
    sample_count sampleRuntime sixURLs sixURLs.infos halfRefused allFast [1, 2, 0]
      (by decide) (by decide) (by decide) (by decide)⟩

/-! ## C3: the worker count is not validated -/

/-- C3, counterexample: with worker count 0 and a readable file, `Build` returns a
benchmarker and a nil error, and `Benchmark` completes normally with a nil error. -/
theorem zero_workers_not_rejected :
    ∃ b : Benchmarker, zeroWorkerBuilder.Build sampleFS = (some b, none) ∧
      b.workerNum = 0 ∧ b.infos.length = 2 ∧
      b.Benchmark sampleRuntime allFast [] = Except.ok { rows := [], err := none } :=
  ⟨_, rfl, rfl, rfl, rfl⟩

theorem received_nil (arrival : List Nat) : Benchmark.received [] arrival = [] := by
  unfold Benchmark.received
  induction arrival with
  | nil => rfl
  | cons i rest ih => simp [List.filterMap_cons, ih]

/-- C3 (as the code has it): no worker count is rejected with an error.  `Build`
copies the worker count unchecked and fails only when the file cannot be opened.
With worker count 0, `Benchmark` launches no worker, prints no KPI row and returns a
nil error; with a negative worker count it panics when it creates the channel,
before any worker is launched. -/
theorem worker_count_not_validated (rt : Runtime) (b : Benchmarker)
    (net : Nat → String → GetResult) (arrival : List Nat) :
    (b.workerNum = 0 →
      List.range b.workerNum.toNat = [] ∧
      b.Benchmark rt net arrival = Except.ok { rows := [], err := none }) ∧
    (b.workerNum < 0 → b.Benchmark rt net arrival = Except.error Panic.makechanSize) ∧
    (∀ (bb : BenchmarkerBuilder) (fs : String → Option (List Char)) (content : List Char),
      fs bb.Filename = some content →
      ∃ b2 : Benchmarker, bb.Build fs = (some b2, none) ∧ b2.workerNum = bb.WorkerNum) := by
  refine ⟨fun h0 => ⟨by simp [h0], ?_⟩, fun hneg => ?_, fun bb fs content hfile => ?_⟩
  · have hc : ¬ (b.workerNum < 0 ∨ (rt.maxChan : Int) < b.workerNum) := by
      have := Int.ofNat_nonneg rt.maxChan
      omega
    unfold Benchmarker.Benchmark Benchmark.aggregate Benchmark.makeChan
    rw [if_neg hc, h0]
    simp only [Int.toNat_zero, List.range_zero, Benchmark.workers, bind, Except.bind, pure,
      Except.pure, received_nil, Benchmark.merge, Benchmark.report]
  · unfold Benchmarker.Benchmark Benchmark.aggregate Benchmark.makeChan
    rw [if_pos (Or.inl hneg)]
    rfl
  · unfold BenchmarkerBuilder.Build
    rw [hfile]
    exact ⟨_, rfl, rfl⟩

/-- Witness of C3 (as the code has it): a benchmarker with worker count 0. -/
theorem worker_count_not_validated_witness :
    (({ sixURLs with workerNum := 0 } : Benchmarker).workerNum = 0) ∧
    List.range ({ sixURLs with workerNum := 0 } : Benchmarker).workerNum.toNat = [] ∧
    ({ sixURLs with workerNum := 0 } : Benchmarker).Benchmark sampleRuntime allFast []
      = Except.ok { rows := [], err := none } :=
  ⟨rfl, (worker_count_not_validated sampleRuntime { sixURLs with workerNum := 0 }
    allFast []).1 rfl⟩

/-! ## C4, C10: the integer columns of `KPI.Show` -/

theorem wrap64_add_mul_self (z m : Int) : wrap64 (z + m * 2 ^ 64) = wrap64 z := by
  unfold wrap64
  rw [show z + m * 2 ^ 64 + 2 ^ 63 = z + 2 ^ 63 + m * 2 ^ 64 by ring, Int.add_mul_emod_self]

theorem wrap64_mul_wrap64 (x y : Int) : wrap64 (wrap64 x * y) = wrap64 (x * y) := by
  have h : wrap64 x = x + -((x + 2 ^ 63) / 2 ^ 64) * 2 ^ 64 := by
    unfold wrap64
    rw [Int.emod_def]
    ring
  rw [h, show (x + -((x + 2 ^ 63) / 2 ^ 64) * 2 ^ 64) * y
    = x * y + (-((x + 2 ^ 63) / 2 ^ 64) * y) * 2 ^ 64 by ring, wrap64_add_mul_self]

theorem show_of_zero (k : KPI) (h : k.success = 0 ∨ k.totalTime = 0) :
    k.Show = Except.error Panic.divideByZero := by
  unfold KPI.Show div64
  by_cases ht : k.totalTime = 0
  · simp only [ht, if_true, bind, Except.bind]
  · have hs : k.success = 0 := h.resolve_right ht
    simp only [ht, hs, if_true, if_false, bind, Except.bind]

/-- C4, the code at the failing input: on the aggregate of a run without any success
(`success = 0`, `totalTime = 0`) `KPI.Show` panics on an integer division by zero,
and so does `Benchmark` on an empty input with one worker. -/
theorem show_panics_without_success :
    KPI.Show { name := "http-1", success := 0, fail := 0, totalTime := 0, count := 1
               timeDistribution := [0, 0, 0, 0, 0] } = Except.error Panic.divideByZero ∧
    Benchmark.aggregate sampleRuntime emptyInput allFast [0]
      = Except.ok [("http", { name := "http", success := 0, fail := 0, totalTime := 0
                              count := 1, timeDistribution := [0, 0, 0, 0, 0] })] ∧
    emptyInput.Benchmark sampleRuntime allFast [0] = Except.error Panic.divideByZero :=
  ⟨rfl, rfl, rfl⟩

/-- C10 (reported QPS and mean latency): for every KPI with `success > 0`,
`totalTime > 0` and a non-negative `count`, when `success * count * 10^9` and
`totalTime` are inside the 64-bit range, `KPI.Show` produces a row whose QPS is the
floor of `success * count * 10^9 / totalTime` and whose mean latency is the floor of
`totalTime / success`. -/
theorem show_qps_and_latency (k : KPI) (hs : 0 < k.success) (ht : 0 < k.totalTime)
    (hc : 0 ≤ k.count) (ho : k.success * k.count * 10 ^ 9 < 2 ^ 63)
    (ht2 : k.totalTime < 2 ^ 63) :
    ∃ row : ShowFields, k.Show = Except.ok row ∧
      row.qps = Int.fdiv (k.success * k.count * 10 ^ 9) k.totalTime ∧
      row.resTime = Int.fdiv k.totalTime k.success := by
  have hprod : mul64 (mul64 k.success Second) k.count = k.success * k.count * 10 ^ 9 := by
    unfold mul64 Second
    rw [wrap64_mul_wrap64, show k.success * 1000000000 * k.count
      = k.success * k.count * 10 ^ 9 by ring]
    exact wrap64_of_inRange (by have : 0 ≤ k.success * k.count * 10 ^ 9 := by positivity
                                omega) ho
  have hnn : 0 ≤ k.success * k.count * 10 ^ 9 := by positivity
  unfold KPI.Show
  rw [hprod, div64_of_nonneg hnn ho ht, div64_of_nonneg (le_of_lt ht) ht2 hs]
  refine ⟨_, rfl, ?_, ?_⟩
  · exact (Int.fdiv_eq_ediv _ (le_of_lt ht)).symm
  · exact (Int.fdiv_eq_ediv _ (le_of_lt hs)).symm

/-- Witness of C10: 4 successes, 3 workers, 0.96 s of cumulated latency. -/
theorem show_qps_and_latency_witness :
    (0 < sampleKPI.success ∧ 0 < sampleKPI.totalTime ∧ 0 ≤ sampleKPI.count ∧
      sampleKPI.success * sampleKPI.count * 10 ^ 9 < 2 ^ 63 ∧ sampleKPI.totalTime < 2 ^ 63) ∧
    ∃ row : ShowFields, sampleKPI.Show = Except.ok row ∧
      row.qps = Int.fdiv (sampleKPI.success * sampleKPI.count * 10 ^ 9) sampleKPI.totalTime ∧
      row.resTime = Int.fdiv sampleKPI.totalTime sampleKPI.success :=
  ⟨⟨by decide, by decide, by decide, by decide, by decide⟩,
    show_qps_and_latency sampleKPI (by decide) (by decide) (by decide) (by decide)
      (by decide)⟩

/-- The row of the sample KPI, evaluated: 12 requests per second, 0.24 s each. -/
theorem show_sample :
    sampleKPI.Show = Except.ok { name := "http-3", success := 4, fail := 3
                                 totalTime := 960000000, qps := 12, resTime := 240000000 } :=
  rfl

/-! ## Consequences for a whole run -/

theorem report_of_zero (b : Benchmarker) (n : String) (k : KPI) (rest : KPIMap)
    (h : k.success = 0 ∨ k.totalTime = 0) :
    Benchmark.report b ((n, k) :: rest) = Except.error Panic.divideByZero := by
  have hs : KPI.Show { k with name := k.name ++ "-" ++ toString b.workerNum }
      = Except.error Panic.divideByZero := show_of_zero _ h
  simp only [Benchmark.report, hs, bind, Except.bind]

/-- On an empty workload, whatever the worker count `N ≥ 1`, the aggregate has no
success and `Benchmark` panics in `Show` on an integer division by zero. -/
theorem benchmark_empty_input_panics (rt : Runtime) (b : Benchmarker)
    (net : Nat → String → GetResult) (arrival : List Nat) (hN : 1 ≤ b.workerNum)
    (hC : b.workerNum ≤ (rt.maxChan : Int)) (hE : b.infos = [])
    (hA : arrival.Perm (List.range b.workerNum.toNat)) :
    b.Benchmark rt net arrival = Except.error Panic.divideByZero := by
  have hR : b.workerNum * b.infos.length < 2 ^ 63 := by
    rw [hE, List.length_nil, Int.ofNat_zero, mul_zero]
    decide
  unfold Benchmarker.Benchmark
  rw [aggregate_eq rt b net arrival hN hC hR hA, hE]
  simp only [bind, Except.bind]
  rw [report_of_zero b _ _ _ (Or.inl wrap64_zero)]

/-- For ascending thresholds, the aggregate of a whole run of `Benchmark` has
non-decreasing buckets. -/
theorem aggregate_buckets_monotone (rt : Runtime) (b : Benchmarker)
    (net : Nat → String → GetResult) (arrival : List Nat)
    (hthr : b.timeDistributionThreshold.Pairwise (fun s t => s ≤ t))
    (hN : 1 ≤ b.workerNum) (hC : b.workerNum ≤ (rt.maxChan : Int))
    (hR : b.workerNum * b.infos.length < 2 ^ 63)
    (hA : arrival.Perm (List.range b.workerNum.toNat)) :
    ∃ agg : KPI, Benchmark.aggregate rt b net arrival = Except.ok [("http", agg)] ∧
      ∀ i j : Nat, i ≤ j → j < b.timeDistributionThreshold.length →
        agg.timeDistribution.getD i 0 ≤ agg.timeDistribution.getD j 0 := by
  have hL : (b.infos.length : Int) < 2 ^ 63 := by
    have h0 : (0 : Int) ≤ b.infos.length := Int.ofNat_nonneg _
    have : (b.infos.length : Int) ≤ b.workerNum * b.infos.length :=
      le_mul_of_one_le_left h0 hN
    omega
  have hlen : ((BenchmarkOnce.outcomes net 0 b.infos).length : Int) < 2 ^ 63 := by
    rw [outcomes_length]; exact hL
  exact ⟨_, aggregate_eq rt b net arrival hN hC hR hA, fun i j hij hj =>
    ofOutcomes_mono b.timeDistributionThreshold hthr (BenchmarkOnce.outcomes net 0 b.infos)
      hlen i j hij hj⟩

/-- Beyond the capacity that the runtime accepts, `Benchmark` panics when it creates
the channel, before any worker is launched. -/
theorem benchmark_beyond_capacity_panics (rt : Runtime) (b : Benchmarker)
    (net : Nat → String → GetResult) (arrival : List Nat)
    (hC : (rt.maxChan : Int) < b.workerNum) :
    b.Benchmark rt net arrival = Except.error Panic.makechanSize := by
  unfold Benchmarker.Benchmark Benchmark.aggregate Benchmark.makeChan
  rw [if_pos (Or.inr hC)]
  rfl

/-- With `2 ^ 45` workers `Benchmark` panics at `make(chan *KPI, b.workerNum)`, whatever
the runtime and even on an empty workload. -/
theorem benchmark_two_pow_45_panics (rt : Runtime) (net : Nat → String → GetResult)
    (arrival : List Nat) :
    Benchmarker.Benchmark
        { workerNum := 2 ^ 45
          timeDistributionThreshold := NewBenchmarkerBuilder.TimeDistributionThreshold
          infos := [] } rt net arrival
      = Except.error Panic.makechanSize := by
  apply benchmark_beyond_capacity_panics
  have h : ((rt.maxChan : Nat) : Int) < 2 ^ 45 := by exact_mod_cast rt.maxChan_lt
  exact h

end Bench
